import Mathlib

/-!
# Verification of the Raven Verification–Consensus–Monetization pipeline

Shallow embedding of the core pipeline of the Raven repository:
the x402 payment lock gate (`src/agent/x402.py`), the Docker verification
sandbox (`src/agent/sandbox.py`), the static validation gate
(`src/agent/validation.py`) and the orchestrator / consensus selector
(`src/agent/coordinator.py`), together with theorems settling the spec's
claims about them.

Python dictionaries are modelled as insertion-ordered association lists
(Python 3.7+ dicts preserve insertion order; overwriting a key keeps its
position).  External collaborators (the uuid generator, wall clock, the
x402 settlement gateway, the Docker daemon and the miner network) are
modelled as explicit oracle inputs; machine randomness (uuid4) is an
oracle string.
-/

set_option maxHeartbeats 1000000

namespace Raven

/-! ## Python dict as an insertion-ordered association list -/

def dictGet {α : Type} (d : List (String × α)) (k : String) : Option α :=
  match d with
  | [] => none
  | (k', v) :: rest => if k' = k then some v else dictGet rest k

/-- `d[k] = v`: overwrite in place if the key exists, else append. -/
def dictSet {α : Type} (d : List (String × α)) (k : String) (v : α) :
    List (String × α) :=
  match d with
  | [] => [(k, v)]
  | (k', v') :: rest => if k' = k then (k, v) :: rest else (k', v') :: dictSet rest k v


/-- Python `str.lower()`, restricted to ASCII case mapping (every string it
is applied to in the embedded code — mode names, status words, URL schemes —
is ASCII). -/
def asciiLower (c : Char) : Char :=
  if 'A' ≤ c ∧ c ≤ 'Z' then Char.ofNat (c.toNat + 32) else c

def pyLower (s : String) : String := ⟨s.data.map asciiLower⟩

/-- Python `s.split(sep)` for a one-character separator. -/
def splitCharAux (sep : Char) : List Char → List Char → List String
  | [], acc => [⟨acc.reverse⟩]
  | c :: rest, acc =>
    if c = sep then ⟨acc.reverse⟩ :: splitCharAux sep rest []
    else splitCharAux sep rest (c :: acc)

def pySplitChar (sep : Char) (s : String) : List String := splitCharAux sep s.data []

/-! ## `src/agent/x402.py` — the payment lock gate (X402Merchant) -/

namespace X402

/-- One entry of `self.active_invoices` (a Python dict value with keys
`content`, `status`, `price`, `created_at`). -/
structure Invoice where
  content : String
  status : String
  price : ℚ
  created_at : ℕ
deriving Repr, DecidableEq

/-- The mutable state of an `X402Merchant` instance. -/
structure MerchantState where
  active_invoices : List (String × Invoice)
  gateway_url : String
  mode : String
deriving Repr, DecidableEq

/-- `X402Merchant.__init__`: the two environment reads are oracles
(`None` models an unset variable). -/
def initMerchant (gatewayEnv modeEnv : Option String) : MerchantState :=
  { active_invoices := []
    gateway_url := gatewayEnv.getD "https://x402.pay/invoice"
    mode := pyLower (modeEnv.getD "demo") }

/-- The dict returned by `create_locked_content`. -/
structure CreateResult where
  invoice_id : String
  payment_link : String
  status : String
deriving Repr, DecidableEq

/-- The invoice id minted by `create_locked_content`: a full uuid4 string in
production mode, its first 8 characters otherwise.  `uuid4` is the oracle
value of the `uuid.uuid4()` call. -/
def createdId (s : MerchantState) (uuid4 : String) : String :=
  if s.mode = "production" then uuid4 else uuid4.take 8

/-- `X402Merchant.create_locked_content`.  `uuid4` and `now` are the oracle
results of `uuid.uuid4()` and `time.time()`. -/
def create_locked_content (s : MerchantState) (uuid4 : String) (now : ℕ)
    (content : String) (price_usdc : ℚ := 5) : CreateResult × MerchantState :=
  let invoice_id := createdId s uuid4
  let payment_link := s.gateway_url ++ "/" ++ invoice_id ++ "?amount=" ++ toString price_usdc
  let inv : Invoice := ⟨content, "unpaid", price_usdc, now⟩
  (⟨invoice_id, payment_link, "402 Payment Required"⟩,
   { s with active_invoices := dictSet s.active_invoices invoice_id inv })

/-- Oracle outcome of the production-mode gateway query
(`requests.get(...)`, `raise_for_status`, `.json()`): either some exception
was raised, or a JSON payload arrived.  The payload is modelled by the
truthiness of `data.get("paid")` and the string `str(data.get("status", ""))`. -/
inductive GatewayReply where
  | failure (msg : String)
  | payload (paidTruthy : Bool) (status : String)
deriving Repr, DecidableEq

/-- `bool(data.get("paid") or str(data.get("status", "")).lower() == "paid")`,
and `False` when the query raised. -/
def gatewayConfirms : GatewayReply → Bool
  | .failure _ => false
  | .payload p st => p || (pyLower st == "paid")

/-- `X402Merchant.verify_payment`.  `gw` is the oracle outcome of the
gateway query (consulted only in non-demo mode). -/
def verify_payment (s : MerchantState) (gw : GatewayReply) (invoice_id : String) :
    Option Bool × MerchantState :=
  match dictGet s.active_invoices invoice_id with
  | none => (none, s)
  | some inv =>
    if s.mode = "demo" then
      (some true,
       { s with active_invoices :=
          dictSet s.active_invoices invoice_id { inv with status := "paid" } })
    else
      match gw with
      | .failure _ => (some false, s)
      | .payload p st =>
        if p || (pyLower st == "paid") then
          (some true,
           { s with active_invoices :=
              dictSet s.active_invoices invoice_id { inv with status := "paid" } })
        else (some false, s)

/-- `X402Merchant.retrieve_content`: `.ok content` models a normal return,
`.error` models the raised `PermissionError`. -/
def retrieve_content (s : MerchantState) (invoice_id : String) : Except String String :=
  match dictGet s.active_invoices invoice_id with
  | some inv =>
    if inv.status = "paid" then .ok inv.content
    else .error "402 Payment Required: Content is locked."
  | none => .error "402 Payment Required: Content is locked."

/-- The three operations of the merchant, with their oracle inputs. -/
inductive MerchantOp where
  | create (uuid4 : String) (now : ℕ) (content : String) (price : ℚ)
  | verify (gw : GatewayReply) (invoice_id : String)
  | retrieve (invoice_id : String)

/-- State transition of one merchant operation (`retrieve_content` only
reads the state). -/
def merchantStep (s : MerchantState) : MerchantOp → MerchantState
  | .create u n c p => (create_locked_content s u n c p).2
  | .verify gw i => (verify_payment s gw i).2
  | .retrieve _ => s

end X402
/-! ## `src/agent/sandbox.py` — the Docker verification sandbox -/

namespace Sandbox

/-- One observable interaction with the Docker backend during
`run_verification`, in call order.  `runCreate started` records the
`client.containers.run(..., detach=True)` call: a successful call creates
the container and immediately starts its entry command
(`python -m pytest -q test_suite.py`), so `started = true`; a raising call
creates nothing. -/
inductive DockerStep where
  | runCreate (started : Bool)
  | copy (filename : String)
  | wait
  | kill
  | logs
  | remove
deriving Repr, DecidableEq

/-- The dict `{success: bool, logs: str}` returned by `run_verification`. -/
structure SandboxResult where
  success : Bool
  logs : String
deriving Repr, DecidableEq

/-- Oracle for one `run_verification` call: the outcome of each Docker API
call it may make.  `.error msg` models a raised exception with
`str(e) = msg`.  `wait`'s success payload is the dict's `StatusCode` value
(`none` when the key is absent, so that `result.get("StatusCode", 1)`
defaults); any exception from `wait` — the timeout above all — is its
`.error` case. -/
structure DockerOracle where
  run : Except String Unit
  copySolution : Except String Unit
  copyTests : Except String Unit
  wait : Except String (Option Int)
  kill : Except String Unit
  logs : Except String String
  remove : Except String Unit

/-- `DockerSandbox.run_verification`, returning its result dict and the
ordered trace of Docker interactions.  The `finally` block force-removes
the container whenever one was created, on every exit path, swallowing any
removal error; the `except` around `wait` kills the container (swallowing
errors) and classifies the failure as a timeout. -/
def run_verification (o : DockerOracle) (timeout_seconds : ℕ) :
    SandboxResult × List DockerStep :=
  match o.run with
  | .error e => (⟨false, e⟩, [.runCreate false])
  | .ok _ =>
    match o.copySolution with
    | .error e => (⟨false, e⟩, [.runCreate true, .copy "solution.py", .remove])
    | .ok _ =>
      match o.copyTests with
      | .error e => (⟨false, e⟩,
          [.runCreate true, .copy "solution.py", .copy "test_suite.py", .remove])
      | .ok _ =>
        match o.wait with
        | .error _ =>
          (⟨false, "Sandbox timeout after " ++ toString timeout_seconds ++ "s"⟩,
           [.runCreate true, .copy "solution.py", .copy "test_suite.py",
            .wait, .kill, .remove])
        | .ok code =>
          match o.logs with
          | .error e => (⟨false, e⟩,
              [.runCreate true, .copy "solution.py", .copy "test_suite.py",
               .wait, .logs, .remove])
          | .ok out =>
            (⟨code.getD 1 == 0, out⟩,
             [.runCreate true, .copy "solution.py", .copy "test_suite.py",
              .wait, .logs, .remove])

/-- Number of containers actually created in a trace. -/
def createdCount (tr : List DockerStep) : ℕ := tr.count (DockerStep.runCreate true)

/-- Number of force-removals in a trace. -/
def removedCount (tr : List DockerStep) : ℕ := tr.count DockerStep.remove

/-- An oracle on which every Docker call succeeds and the tests pass. -/
def oracleAllOk : DockerOracle :=
  ⟨.ok (), .ok (), .ok (), .ok (some 0), .ok (), .ok "4 passed", .ok ()⟩

/-- An oracle on which `container.wait` raises (the timeout case). -/
def oracleTimeout : DockerOracle :=
  ⟨.ok (), .ok (), .ok (), .error "Read timed out.", .ok (), .ok "", .ok ()⟩

end Sandbox

/-! ## `src/agent/validation.py` — the static validation gate -/

namespace Validation

/-- `ValidationResult` of `src/agent/validation.py`. -/
structure ValidationResult where
  ok : Bool
  reason : String
deriving Repr, DecidableEq

/-- The fragment of CPython `ast` node kinds that `validate_patch_code`'s
walk can meet in candidate sources.  Child order of each constructor
matches `ast.iter_child_nodes` on the corresponding CPython node
(`functionDef` children are the `arguments` node followed by the body;
`call` children are the callee followed by the arguments).  Inert leaf
payloads that the walk never inspects (alias nodes of imports, decorator
lists, argument details) are flattened away: they match none of the
`isinstance` checks and so never influence which node violates first. -/
inductive Ast where
  | module (body : List Ast)
  | functionDef (nm : String) (args : Ast) (body : List Ast)
  | arguments
  | exprStmt (value : Ast)
  | importStmt (names : List String)
  | importFrom (mod : Option String) (names : List String)
  | call (func : Ast) (args : List Ast)
  | name (id : String)
  | attribute (value : Ast) (attr : String)
  | constant (val : String)
  | assign (targets : List Ast) (value : Ast)
  | ret (value : Option Ast)
deriving Repr

/-- `ast.iter_child_nodes`. -/
def children : Ast → List Ast
  | .module body => body
  | .functionDef _ args body => args :: body
  | .arguments => []
  | .exprStmt v => [v]
  | .importStmt _ => []
  | .importFrom _ _ => []
  | .call f args => f :: args
  | .name _ => []
  | .attribute v _ => [v]
  | .constant _ => []
  | .assign ts v => ts ++ [v]
  | .ret v => v.toList

mutual

/-- Node count of a tree (used as depth fuel for the breadth-first walk). -/
def astSize : Ast → ℕ
  | .module body => 1 + astSizeList body
  | .functionDef _ args body => 1 + astSize args + astSizeList body
  | .arguments => 1
  | .exprStmt v => 1 + astSize v
  | .importStmt _ => 1
  | .importFrom _ _ => 1
  | .call f args => 1 + astSize f + astSizeList args
  | .name _ => 1
  | .attribute v _ => 1 + astSize v
  | .constant _ => 1
  | .assign ts v => 1 + astSizeList ts + astSize v
  | .ret v => 1 + (match v with | some a => astSize a | none => 0)

def astSizeList : List Ast → ℕ
  | [] => 0
  | a :: rest => astSize a + astSizeList rest

end

/-- Breadth-first levels: `ast.walk` uses a FIFO deque (pop the front,
append the children), which visits nodes level by level, each level in
left-to-right order.  The fuel is an upper bound on the tree depth; the
node count `astSize` always suffices. -/
def bfsLevels : ℕ → List Ast → List Ast
  | 0, _ => []
  | fuel + 1, level => level ++ bfsLevels fuel (level.flatMap children)

/-- The list of nodes in `ast.walk(tree)` order. -/
def walkAst (tree : Ast) : List Ast := bfsLevels (astSize tree) [tree]

def _DEFAULT_FORBIDDEN_MODULES : List String :=
  ["os", "subprocess", "socket", "ssl", "asyncio", "multiprocessing",
   "threading", "signal", "pathlib", "shutil", "glob", "tempfile",
   "importlib", "pickle", "marshal", "requests", "urllib", "http",
   "ftplib", "docker"]

def _DEFAULT_FORBIDDEN_CALLS : List String :=
  ["eval", "exec", "compile", "__import__", "open"]

/-- `(alias.name or "").split(".")[0]` / `(node.module or "").split(".")[0]`. -/
def rootModule (nm : String) : String := (pySplitChar '.' nm).headD ""

/-- The violation (if any) that one walked node triggers inside the
`for node in ast.walk(tree)` loop body: a forbidden `import`
(first offending alias wins, as in the inner `for alias in node.names`),
a forbidden `from … import`, or a call of a forbidden built-in by direct
unqualified name (`isinstance(fn, ast.Name)`). -/
def nodeViolation (fm fc : List String) : Ast → Option ValidationResult
  | .importStmt names =>
    match names.find? (fun nm => fm.contains (rootModule nm)) with
    | some nm => some ⟨false, "Forbidden import: " ++ rootModule nm⟩
    | none => none
  | .importFrom mod _ =>
    let m := rootModule (mod.getD "")
    if fm.contains m then some ⟨false, "Forbidden import: " ++ m⟩ else none
  | .call f _ =>
    match f with
    | .name id => if fc.contains id then some ⟨false, "Forbidden call: " ++ id ++ "()"⟩ else none
    | _ => none
  | _ => none

/-- `isinstance(node, ast.FunctionDef) and node.name == require_function`,
over the whole walk (the flag is only read after a violation-free walk, so
computing it over the full walk is equivalent to the loop's incremental
assignment). -/
def hasRequired (req : String) (walk : List Ast) : Bool :=
  walk.any (fun n => match n with | .functionDef nm _ _ => nm == req | _ => false)

/-- Whitespace for Python `str.strip()` / `str.rstrip()` (ASCII range; the
embedded call sites only meet ASCII whitespace). -/
def pyIsSpace (c : Char) : Bool :=
  c == ' ' || c == '\t' || c == '\n' || c == '\r' || c == '\x0b' || c == '\x0c'

end Validation

def pyStrip (s : String) : String :=
  ⟨((s.data.dropWhile Validation.pyIsSpace).reverse.dropWhile Validation.pyIsSpace).reverse⟩

def pyRstrip (s : String) : String :=
  ⟨(s.data.reverse.dropWhile Validation.pyIsSpace).reverse⟩

namespace Validation

/-- A candidate source: its raw text together with the outcome of
`ast.parse(text)` on it.  Parsing itself is CPython's, an external
component; a `PySource` value packages a text with its parse result, and
the concrete instances used below pair texts with their actual CPython
parse trees. -/
structure PySource where
  text : String
  parsed : Except String Ast

/-- `validate_patch_code` of `src/agent/validation.py`.  The first return
inside the walk loop is the first walked node that violates rule 4 or
rule 5 (a node is at most one of `Import`/`ImportFrom`/`Call`, so the
loop body's check order within one node is immaterial). -/
def validate_patch_code (src : PySource) (require_function : String := "fix_issue")
    (max_chars : ℕ := 20000)
    (forbidden_modules : List String := _DEFAULT_FORBIDDEN_MODULES)
    (forbidden_calls : List String := _DEFAULT_FORBIDDEN_CALLS) : ValidationResult :=
  if pyStrip src.text = "" then ⟨false, "Empty patch"⟩
  else if src.text.length > max_chars then
    ⟨false, "Patch too large (> " ++ toString max_chars ++ " chars)"⟩
  else
    match src.parsed with
    | .error e => ⟨false, "Syntax error: " ++ e⟩
    | .ok tree =>
      let walk := walkAst tree
      match walk.findSome? (nodeViolation forbidden_modules forbidden_calls) with
      | some v => v
      | none =>
        if hasRequired require_function walk then ⟨true, "OK"⟩
        else ⟨false, "Missing required function: " ++ require_function ++ "()"⟩

/-- The C2 counterexample source text:
a forbidden call at top level followed by a forbidden import nested in a
function body.  Text: `eval("x")` then `def f():` / `    import os`. -/
def ce2_text : String := "eval(\"x\")\ndef f():\n    import os\n"

/-- CPython parse tree of `ce2_text` (`ast.parse` output):
`Module([Expr(Call(Name('eval'), [Constant('x')])), FunctionDef('f', arguments, [Import([alias('os')])])])`. -/
def ce2_tree : Ast :=
  .module
    [.exprStmt (.call (.name "eval") [.constant "x"]),
     .functionDef "f" .arguments [.importStmt ["os"]]]

def ce2_src : PySource := ⟨ce2_text, .ok ce2_tree⟩

end Validation

/-! ## `src/agent/coordinator.py` — consensus selection -/

/-- Line-break characters of Python `str.splitlines()`. -/
def pyIsLineBreak (c : Char) : Bool :=
  c == '\n' || c == '\r' || c == '\x0b' || c == '\x0c' ||
  c == '\x1c' || c == '\x1d' || c == '\x1e' || c == '\x85' ||
  c == '\u2028' || c == '\u2029'

/-- Python `str.splitlines()`: split at every line break, `\r\n` counting
as one break, with no trailing empty line for a trailing break. -/
def splitlinesAux : List Char → List Char → List String
  | [], acc => if acc.isEmpty then [] else [⟨acc.reverse⟩]
  | '\r' :: '\n' :: rest, acc => (⟨acc.reverse⟩ : String) :: splitlinesAux rest []
  | c :: rest, acc =>
    if pyIsLineBreak c then (⟨acc.reverse⟩ : String) :: splitlinesAux rest []
    else splitlinesAux rest (c :: acc)

def pySplitlines (s : String) : List String := splitlinesAux s.data []

namespace Coord

/-- One candidate dict from the miner network, as consumed by the
coordinator: `cand.get("miner_id", "Unknown")` and `cand.get("code", "")`
are modelled as total fields (the network always populates both keys);
the code is carried together with its CPython parse outcome so that the
coordinator can run the static gate on it. -/
structure Cand where
  miner_id : String
  code : Validation.PySource

/-- `_normalize_code` of `src/agent/coordinator.py`:
`"\n".join(line.rstrip() for line in (code or "").strip().splitlines()).strip()`. -/
def _normalize_code (code : String) : String :=
  pyStrip (String.intercalate "\n" ((pySplitlines (pyStrip code)).map pyRstrip))

/-- One iteration of the bucket-building loop: append to the existing
bucket, or create a new bucket at the end (dict insertion order = the
`order` list of the source). -/
def bucketsAdd (b : List (String × List Cand)) (key : String) (c : Cand) :
    List (String × List Cand) :=
  match dictGet b key with
  | some members => dictSet b key (members ++ [c])
  | none => b ++ [(key, [c])]

/-- The bucket-building loop of `_select_consensus_winner` (and of
`_consensus_report`, which builds the same grouping via `setdefault`). -/
def buildBuckets (cands : List Cand) : List (String × List Cand) :=
  cands.foldl (fun b c => bucketsAdd b (_normalize_code c.code.text) c) []

/-- The `for code in order` loop of `_select_consensus_winner`:
`best_code, best_count` start at `None, -1` and are replaced on a strictly
greater count. -/
def selectLoop : List (String × List Cand) → Option String → Int → Option String
  | [], best, _ => best
  | (k, members) :: rest, best, best_count =>
    if (members.length : Int) > best_count then
      selectLoop rest (some k) (members.length : Int)
    else selectLoop rest best best_count

/-- `_select_consensus_winner` of `src/agent/coordinator.py`.  The source
assumes a non-empty list (it indexes `buckets[best_code][0]`); `none` is
returned exactly when the list is empty and models the `KeyError` the
source would raise. -/
def _select_consensus_winner (passing : List Cand) : Option Cand :=
  let buckets := buildBuckets passing
  match selectLoop buckets none (-1) with
  | none => none
  | some best_code => (dictGet buckets best_code).bind List.head?

/-- Spec-side definition (from the spec's words, for the refinement
comparison of C5): the greatest bucket member count. -/
def maxBucketCount (buckets : List (String × List Cand)) : ℕ :=
  (buckets.map (fun b => b.2.length)).foldr max 0

/-- Spec-side definition (from the spec's words, for the refinement
comparison of C5): the winner is the first candidate ever added to the
first-seen bucket having the strictly greatest member count. -/
def specConsensusWinner (passing : List Cand) : Option Cand :=
  let buckets := buildBuckets passing
  (buckets.find? (fun b => b.2.length = maxBucketCount buckets)).bind
    (fun b => b.2.head?)

/-- Stable insertion step for `sorted(..., key=lambda kv: len(kv[1]), reverse=True)`:
an element is placed before the first element with no greater vote count,
so elements with equal counts keep their original relative order. -/
def insertByVotesDesc (x : String × List String) :
    List (String × List String) → List (String × List String)
  | [] => [x]
  | y :: rest =>
    if y.2.length > x.2.length then y :: insertByVotesDesc x rest
    else x :: y :: rest

/-- Python's stable `sorted(buckets.items(), key=lambda kv: len(kv[1]), reverse=True)`. -/
def sortByVotesDesc : List (String × List String) → List (String × List String)
  | [] => []
  | a :: l => insertByVotesDesc a (sortByVotesDesc l)

/-- Python `repr` of a list of (quote-free) strings, as interpolated by
`f"... Miners={miners} ..."`. -/
def pyListRepr (l : List String) : String :=
  "[" ++ String.intercalate ", " (l.map (fun s => "'" ++ s ++ "'")) ++ "]"

/-- `_consensus_report` of `src/agent/coordinator.py`.  Its buckets are the
same grouping as `_select_consensus_winner`'s (`setdefault` in the same
candidate order), keyed to miner ids. -/
def _consensus_report (passing : List Cand) (winner : Cand) : String :=
  let buckets := (buildBuckets passing).map (fun b => (b.1, b.2.map Cand.miner_id))
  let sorted := sortByVotesDesc buckets
  let bucketLines := sorted.enum.map (fun p =>
    let preview := pyStrip (if p.2.1 = "" then "" else (pySplitlines p.2.1).headD "")
    toString (p.1 + 1) ++ ". Votes=" ++ toString p.2.2.length ++
      " Miners=" ++ pyListRepr p.2.2 ++ " Preview=" ++ preview.take 80)
  String.intercalate "\n"
    (["Passing patches: " ++ toString passing.length,
      "Unique passing solutions: " ++ toString buckets.length] ++
     bucketLines ++
     ["Selected winner: " ++ winner.miner_id])

/-! ### `urllib.parse.urlsplit`, as called by `solve_issue` -/

/-- The `(scheme, netloc, path, query, fragment)` tuple of `urlsplit`
(attribute access only; the coordinator reads `netloc` and `path`). -/
structure SplitResult where
  scheme : String
  netloc : String
  path : String
  query : String
  fragment : String
deriving Repr, DecidableEq

/-- CPython removes `\t`, `\r`, `\n` from the url before parsing. -/
def removeUnsafeUrlChars (s : String) : String :=
  ⟨s.data.filter (fun c => !(c == '\t' || c == '\r' || c == '\n'))⟩

def isSchemeChar (c : Char) : Bool :=
  c.isAlphanum || c == '+' || c == '-' || c == '.'

/-- Scheme extraction: at the first `:`, provided a letter starts the url
and every character before the colon is a scheme character. -/
def splitScheme (l : List Char) : String × List Char :=
  match l.findIdx? (fun c => c == ':') with
  | some i =>
    if 0 < i ∧ (l.headD ' ').isAlpha ∧ (l.take i).all isSchemeChar then
      (pyLower ⟨l.take i⟩, l.drop (i + 1))
    else ("", l)
  | none => ("", l)

/-- `_splitnetloc`: the netloc runs from after `//` to the first of
`/`, `?`, `#`. -/
def splitNetloc (l : List Char) : List Char × List Char :=
  let rest := l.drop 2
  let nl := rest.takeWhile (fun c => !(c == '/' || c == '?' || c == '#'))
  (nl, rest.drop nl.length)

/-- `s.split(ch, 1)`: the part before the first occurrence and the part
after it (everything, and empty, when absent). -/
def splitOnceAt (l : List Char) (ch : Char) : List Char × List Char :=
  let before := l.takeWhile (fun c => !(c == ch))
  (before, if before.length = l.length then [] else l.drop (before.length + 1))

/-- `urllib.parse.urlsplit` (CPython ≤ 3.10 semantics: unsafe-character
removal, scheme split, netloc split with the unbalanced-square-bracket
check raising `ValueError("Invalid IPv6 URL")`, then fragment and query
splits).  `.error` models the raised `ValueError`. -/
def urlsplit (url : String) : Except String SplitResult :=
  let l := (removeUnsafeUrlChars url).data
  let sp := splitScheme l
  if sp.2.take 2 = ['/', '/'] then
    let nlp := splitNetloc sp.2
    if (nlp.1.contains '[' && !(nlp.1.contains ']')) ||
       (nlp.1.contains ']' && !(nlp.1.contains '[')) then
      Except.error "Invalid IPv6 URL"
    else
      let fr := splitOnceAt nlp.2 '#'
      let qu := splitOnceAt fr.1 '?'
      Except.ok ⟨sp.1, ⟨nlp.1⟩, ⟨qu.1⟩, ⟨qu.2⟩, ⟨fr.2⟩⟩
  else
    let fr := splitOnceAt sp.2 '#'
    let qu := splitOnceAt fr.1 '?'
    Except.ok ⟨sp.1, "", ⟨qu.1⟩, ⟨qu.2⟩, ⟨fr.2⟩⟩

/-! ### The orchestrator `AgentCoordinator.solve_issue` -/

def fallbackRepoUrl : String := "https://github.com/demo-organization/demo-repo.git"

/-- Lines 59–68 of `coordinator.py`: parse the issue url, and keep
`https://github.com/{org}/{repo}.git` only for a `github.com` netloc with
at least two non-empty path segments; anything else falls back.  An
exception from `urlsplit` propagates (`.error`). -/
def computeTargetRepoUrl (issue_url : String) : Except String String :=
  match urlsplit issue_url with
  | .error e => .error e
  | .ok p =>
    let path_parts := (pySplitChar '/' p.path).filter (fun s => !(s == ""))
    if 2 ≤ path_parts.length ∧ p.netloc = "github.com" then
      .ok ("https://github.com/" ++ path_parts.headD "" ++ "/" ++
        (path_parts.drop 1).headD "" ++ ".git")
    else .ok fallbackRepoUrl

/-- The `run_tests.sh` heredoc, with the target repository url
interpolated at its two occurrences. -/
def run_tests_sh (target_repo_url : String) : String :=
  "#!/bin/bash\nset -e\necho \"Cloning target repository: " ++ target_repo_url ++
  "\"\ngit clone --depth 1 " ++ target_repo_url ++
  " target_repo || exit 1\ncd target_repo\necho \"Applying AI generated patch (solution.py)...\"\ncp /app/solution.py .\necho \"Installing dependencies and running tests...\"\nif [ -f requirements.txt ]; then pip install -r requirements.txt; fi\npython -m pytest -q\n"

/-- The terminal bundle yielded with `complete`. -/
structure Bundle where
  winner : String
  verification_logs : String
  payment_link : String
  invoice_id : String
deriving Repr, DecidableEq

/-- One yielded progress event: `solve_issue` yields only these three
kinds. -/
inductive Ev where
  | event (text : String)
  | error (text : String)
  | complete (b : Bundle)
deriving Repr, DecidableEq

/-- What the miner network's `request_patches_stream_events` generator
yields (the default `CortensorLiveNetwork` branch of the coordinator);
kinds other than `event`/`candidate` are not produced. -/
inductive NetEmission where
  | event (payload : String)
  | candidate (c : Cand)

/-- Collaborator oracle for the miner network: its emissions in order,
then optionally a raised exception (`str(e) = msg`) ending the stream. -/
structure NetOracle where
  emissions : List NetEmission
  raises : Option String

/-- Oracle bundle for one `solve_issue` run: the miner network, the Docker
backend of the i-th verification call, the two `_int_env` reads
(`DOCKER_TIMEOUT`, `RAVEN_REDUNDANCY`), the merchant's environment, and
the uuid/clock oracles of the single `create_locked_content` call. -/
structure RunOracle where
  net : NetOracle
  docker : ℕ → Sandbox.DockerOracle
  timeout : ℕ
  redundancy : ℕ
  gatewayEnv : Option String
  modeEnv : Option String
  uuid4 : String
  now : ℕ

/-- Events yielded while iterating the network stream. -/
def collectEvents (ems : List NetEmission) : List Ev :=
  ems.map (fun e => match e with
    | .event p => Ev.event p
    | .candidate c => Ev.event ("📦 Patch received from **" ++ c.miner_id ++ "**"))

/-- The `candidates` list accumulated while iterating the stream. -/
def collectCands (ems : List NetEmission) : List Cand :=
  ems.filterMap (fun e => match e with
    | .candidate c => some c
    | .event _ => none)

/-- Record of one `self.sandbox.run_verification(code, run_tests_sh)` call. -/
structure SandboxCall where
  miner_id : String
  script : String
  result : Sandbox.SandboxResult
  dtrace : List Sandbox.DockerStep
deriving Repr, DecidableEq

/-- The loop state of the `for cand in candidates` loop (`logs`,
`passing`, `validation_blocked`), plus the yielded events and the
verification calls made so far (the next call's Docker oracle index is
`calls.length`). -/
structure LoopState where
  events : List Ev
  logs : List String
  passing : List Cand
  validation_blocked : ℕ
  calls : List SandboxCall

/-- One iteration of the candidate loop.  A blocked candidate appends a
BLOCKED log line (whose `\\n` separators are literal backslash-n, as in
the Python source's escaped f-string) and a blocked event; an accepted one
yields the testing event, runs the sandbox, logs PASS/FAIL with real
newlines, and collects passing candidates. -/
def procCand (o : RunOracle) (script : String) (st : LoopState) (cand : Cand) :
    LoopState :=
  let v := Validation.validate_patch_code cand.code
  if v.ok = false then
    { st with
      validation_blocked := st.validation_blocked + 1
      logs := st.logs ++
        ["Miner: " ++ cand.miner_id ++ "\\nResult: BLOCKED\\nReason: " ++
         v.reason ++ "\\n---"]
      events := st.events ++
        [Ev.event ("⛔ Patch from **" ++ cand.miner_id ++ "** blocked: " ++ v.reason)] }
  else
    let rv := Sandbox.run_verification (o.docker st.calls.length) o.timeout
    { st with
      events := st.events ++
        [Ev.event ("Testing Patch from **" ++ cand.miner_id ++ "** in Sandbox...")]
      calls := st.calls ++ [⟨cand.miner_id, script, rv.1, rv.2⟩]
      logs := st.logs ++
        ["Miner: " ++ cand.miner_id ++ "\nResult: " ++
         (if rv.1.success then "PASS" else "FAIL") ++ "\nLogs: " ++ rv.1.logs ++
         "\n---"]
      passing := if rv.1.success then st.passing ++ [cand] else st.passing }

/-- The observable outcome of a run: the yielded event stream plus the
run's `logs`/`passing` state and its verification calls. -/
structure RunTrace where
  events : List Ev
  logs : List String
  passing : List Cand
  calls : List SandboxCall

/-- The run from the candidate loop onwards, with the clone target already
resolved.  The unreachable `none` branch of the selector (it needs a
non-empty passing list, guaranteed here) models the `KeyError` Python
would raise, caught by the top-level handler. -/
def solveWithTarget (o : RunOracle) (evs0 : List Ev) (cands : List Cand)
    (target : String) : RunTrace :=
  let script := run_tests_sh target
  let st := cands.foldl (procCand o script) ⟨evs0, [], [], 0, []⟩
  if st.passing.isEmpty then
    ⟨st.events ++ [Ev.error "❌ No consensus reached. All patches failed verification."],
     st.logs, st.passing, st.calls⟩
  else
    match _select_consensus_winner st.passing with
    | none =>
      ⟨st.events ++ [Ev.error "❌ Unexpected error in workflow: KeyError"],
       st.logs, st.passing, st.calls⟩
    | some winner =>
      let note0 := _consensus_report st.passing winner
      let note :=
        if st.validation_blocked ≠ 0 then
          note0 ++ "\n\nBlocked by validation: " ++ toString st.validation_blocked
        else note0
      let logs2 := st.logs ++ ["\n=== CONSENSUS ===\n" ++ note ++ "\n"]
      let merchant := X402.initMerchant o.gatewayEnv o.modeEnv
      let lock := X402.create_locked_content merchant o.uuid4 o.now winner.code.text 5
      ⟨st.events ++
        [Ev.event ("🏆 **Winner Found:** " ++ winner.miner_id ++ ". Creating x402 Lock...")] ++
        [Ev.complete ⟨winner.miner_id, String.intercalate "\n" logs2,
          lock.1.payment_link, lock.1.invoice_id⟩],
       logs2, st.passing, st.calls⟩

/-- `AgentCoordinator.solve_issue` with the clone target supplied
directly (for comparing runs across targets). -/
def solve_issueGivenTarget (issue_url target : String) (o : RunOracle) : RunTrace :=
  let evs1 :=
    [Ev.event ("🔍 **Analyzing Issue:** " ++ issue_url),
     Ev.event ("📡 **Delegating to Miner Network:** Requesting " ++
       toString o.redundancy ++ " redundant solutions...")] ++
    collectEvents o.net.emissions
  let cands := collectCands o.net.emissions
  match o.net.raises with
  | some msg =>
    ⟨evs1 ++ [Ev.error ("❌ Unexpected error in workflow: " ++ msg)], [], [], []⟩
  | none =>
    if cands.isEmpty then
      ⟨evs1 ++ [Ev.error "❌ No solutions received from miner network."], [], [], []⟩
    else solveWithTarget o evs1 cands target

/-- `AgentCoordinator.solve_issue` (the `request_patches_stream_events`
branch): yield the analyzing and delegating events, iterate the network
stream (a mid-stream collaborator exception aborts to the top-level
handler), bail out on zero candidates, resolve the clone target (a
`urlsplit` `ValueError` aborts to the top-level handler), then run the
candidate loop, consensus and the payment lock. -/
def solve_issue (issue_url : String) (o : RunOracle) : RunTrace :=
  let evs1 :=
    [Ev.event ("🔍 **Analyzing Issue:** " ++ issue_url),
     Ev.event ("📡 **Delegating to Miner Network:** Requesting " ++
       toString o.redundancy ++ " redundant solutions...")] ++
    collectEvents o.net.emissions
  let cands := collectCands o.net.emissions
  match o.net.raises with
  | some msg =>
    ⟨evs1 ++ [Ev.error ("❌ Unexpected error in workflow: " ++ msg)], [], [], []⟩
  | none =>
    if cands.isEmpty then
      ⟨evs1 ++ [Ev.error "❌ No solutions received from miner network."], [], [], []⟩
    else
      match computeTargetRepoUrl issue_url with
      | .error e =>
        ⟨evs1 ++ [Ev.error ("❌ Unexpected error in workflow: " ++ e)], [], [], []⟩
      | .ok target => solveWithTarget o evs1 cands target

/-- Three concrete passing candidates: two normalize to the same code,
one differs (each code text carries its CPython parse tree). -/
def candB : Cand :=
  ⟨"miner-b", ⟨"y = 2\n",
    Except.ok (Validation.Ast.module
      [Validation.Ast.assign [Validation.Ast.name "y"] (Validation.Ast.constant "2")])⟩⟩

def candA1 : Cand :=
  ⟨"miner-a1", ⟨"x = 1\n",
    Except.ok (Validation.Ast.module
      [Validation.Ast.assign [Validation.Ast.name "x"] (Validation.Ast.constant "1")])⟩⟩

def candA2 : Cand :=
  ⟨"miner-a2", ⟨"x = 1",
    Except.ok (Validation.Ast.module
      [Validation.Ast.assign [Validation.Ast.name "x"] (Validation.Ast.constant "1")])⟩⟩

/-- Parse tree of `def fix_issue():\n    return 1\n`. -/
def fixTree1 : Validation.Ast :=
  .module [.functionDef "fix_issue" .arguments [.ret (some (.constant "1"))]]

/-- A gate-passing candidate whose verification will time out. -/
def candFixT : Cand := ⟨"miner-t", ⟨"def fix_issue():\n    return 1\n", .ok fixTree1⟩⟩

/-- A gate-passing candidate whose verification will pass. -/
def candFixP : Cand := ⟨"miner-p", ⟨"def fix_issue():\n    return 1\n", .ok fixTree1⟩⟩

/-- A concrete run oracle for C8: two gate-passing candidates; the first
verification call times out, the second succeeds. -/
def c8oracle : RunOracle :=
  ⟨⟨[.candidate candFixT, .candidate candFixP], none⟩,
   (fun j => if j = 0 then Sandbox.oracleTimeout else Sandbox.oracleAllOk),
   30, 3, none, none, "uuid-1234-abcd", 0⟩

/-- A concrete run oracle for C10: one candidate, all Docker calls fine. -/
def c10oracle : RunOracle :=
  ⟨⟨[.candidate candFixT], none⟩, (fun _ => Sandbox.oracleAllOk),
   30, 3, none, none, "uuid-5678-efab", 0⟩

end Coord

/-! ## Helper lemmas -/

theorem dictGet_dictSet_self {α : Type} (d : List (String × α)) (k : String) (v : α) :
    dictGet (dictSet d k v) k = some v := by
  induction d with
  | nil => simp [dictGet, dictSet]
  | cons hd tl ih =>
    obtain ⟨k', v'⟩ := hd
    by_cases h : k' = k
    · simp [dictGet, dictSet, h]
    · simp [dictGet, dictSet, h, ih]

theorem dictGet_dictSet_ne {α : Type} (d : List (String × α)) (k k' : String) (v : α)
    (h : k' ≠ k) : dictGet (dictSet d k v) k' = dictGet d k' := by
  have hks : ¬ k = k' := fun hh => h hh.symm
  induction d with
  | nil => simp [dictGet, dictSet, hks]
  | cons hd tl ih =>
    obtain ⟨k0, v0⟩ := hd
    by_cases h0 : k0 = k
    · subst h0
      simp [dictGet, dictSet, hks]
    · simp only [dictSet, if_neg h0]
      by_cases h1 : k0 = k'
      · simp [dictGet, h1]
      · simp [dictGet, h1, ih]

/-! ### Claims C1, C4, C7 — the payment lock gate -/

/-- C1 (counterexample): the claim says `verify_payment` in any mode never
marks an invoice paid without a confirmed settlement signal.  In demo mode
(the default), `verify_payment` marks a freshly created unpaid invoice paid
even though the gateway oracle reports a failure (no confirmed settlement). -/
theorem c1_counterexample :
    (X402.initMerchant none none).mode = "demo" ∧
    (X402.create_locked_content (X402.initMerchant none none)
      "0a1b2c3d-9999" 0 "SECRET" 5).1.invoice_id = "0a1b2c3d" ∧
    (dictGet (X402.create_locked_content (X402.initMerchant none none)
      "0a1b2c3d-9999" 0 "SECRET" 5).2.active_invoices "0a1b2c3d").map
        X402.Invoice.status = some "unpaid" ∧
    X402.gatewayConfirms (X402.GatewayReply.failure "gateway unreachable") = false ∧
    (dictGet (X402.verify_payment
        (X402.create_locked_content (X402.initMerchant none none)
          "0a1b2c3d-9999" 0 "SECRET" 5).2
        (X402.GatewayReply.failure "gateway unreachable")
        "0a1b2c3d").2.active_invoices "0a1b2c3d").map
      X402.Invoice.status = some "paid" := by
  decide

/-- C1 (amended): across any merchant operation (with fresh uuid oracles for
`create`), a paid invoice never goes back to unpaid and keeps its content,
and an unpaid invoice becomes paid only through `verify_payment` on its own
id, and then only when the merchant runs in demo mode (auto-approval) or the
settlement gateway confirmed the payment. -/
theorem c1_theorem (s : X402.MerchantState) (op : X402.MerchantOp)
    (id : String) (inv inv' : X402.Invoice)
    (hfresh : ∀ u n c p, op = X402.MerchantOp.create u n c p →
      dictGet s.active_invoices (X402.createdId s u) = none)
    (hbefore : dictGet s.active_invoices id = some inv)
    (hafter : dictGet (X402.merchantStep s op).active_invoices id = some inv') :
    (inv.status = "paid" → inv'.status = "paid" ∧ inv'.content = inv.content) ∧
    (inv.status ≠ "paid" → inv'.status = "paid" →
      ∃ gw, op = X402.MerchantOp.verify gw id ∧
        (s.mode = "demo" ∨ X402.gatewayConfirms gw = true)) := by
  cases op with
  | create u n c p =>
    have hf := hfresh u n c p rfl
    have hne : id ≠ X402.createdId s u := by
      intro he
      rw [he, hf] at hbefore
      exact Option.noConfusion hbefore
    simp only [X402.merchantStep, X402.create_locked_content] at hafter
    rw [dictGet_dictSet_ne _ _ _ _ hne, hbefore] at hafter
    obtain rfl : inv = inv' := Option.some.inj hafter
    exact ⟨fun h => ⟨h, rfl⟩, fun hnp hp => absurd hp hnp⟩
  | verify gw i =>
    simp only [X402.merchantStep, X402.verify_payment] at hafter
    rcases hgd : dictGet s.active_invoices i with _ | invi <;>
      simp only [hgd] at hafter
    · obtain rfl : inv = inv' := Option.some.inj (hbefore ▸ hafter)
      exact ⟨fun h => ⟨h, rfl⟩, fun hnp hp => absurd hp hnp⟩
    · by_cases hm : s.mode = "demo"
      · simp only [hm, eq_self_iff_true, if_true] at hafter
        by_cases hid : id = i
        · subst hid
          rw [dictGet_dictSet_self] at hafter
          obtain rfl := Option.some.inj hafter
          refine ⟨fun h => ?_, fun _ _ => ⟨gw, rfl, Or.inl hm⟩⟩
          have hiv : inv = invi := Option.some.inj (hbefore.symm.trans hgd)
          exact ⟨rfl, by rw [hiv]⟩
        · rw [dictGet_dictSet_ne _ _ _ _ hid] at hafter
          obtain rfl : inv = inv' := Option.some.inj (hbefore ▸ hafter)
          exact ⟨fun h => ⟨h, rfl⟩, fun hnp hp => absurd hp hnp⟩
      · simp only [if_neg hm] at hafter
        cases gw with
        | failure msg =>
          obtain rfl : inv = inv' := Option.some.inj (hbefore ▸ hafter)
          exact ⟨fun h => ⟨h, rfl⟩, fun hnp hp => absurd hp hnp⟩
        | payload p st =>
          by_cases hp : (p || (pyLower st == "paid")) = true
          · simp only [hp, if_true] at hafter
            by_cases hid : id = i
            · subst hid
              rw [dictGet_dictSet_self] at hafter
              obtain rfl := Option.some.inj hafter
              refine ⟨fun h => ?_, fun _ _ =>
                ⟨X402.GatewayReply.payload p st, rfl,
                 Or.inr (by simpa [X402.gatewayConfirms] using hp)⟩⟩
              have hiv : inv = invi := Option.some.inj (hbefore.symm.trans hgd)
              exact ⟨rfl, by rw [hiv]⟩
            · rw [dictGet_dictSet_ne _ _ _ _ hid] at hafter
              obtain rfl : inv = inv' := Option.some.inj (hbefore ▸ hafter)
              exact ⟨fun h => ⟨h, rfl⟩, fun hnp hp' => absurd hp' hnp⟩
          · simp only [if_neg hp] at hafter
            obtain rfl : inv = inv' := Option.some.inj (hbefore ▸ hafter)
            exact ⟨fun h => ⟨h, rfl⟩, fun hnp hp' => absurd hp' hnp⟩
  | retrieve i =>
    simp only [X402.merchantStep] at hafter
    obtain rfl : inv = inv' := Option.some.inj (hbefore ▸ hafter)
    exact ⟨fun h => ⟨h, rfl⟩, fun hnp hp => absurd hp hnp⟩

/-- Witness for C1 (amended): applied at a concrete one-invoice paid state
and a `retrieve` operation. -/
theorem c1_theorem_witness :
    dictGet (X402.MerchantState.mk
        [("i1", X402.Invoice.mk "C" "paid" 5 0)] "g" "production").active_invoices
      "i1" = some (X402.Invoice.mk "C" "paid" 5 0) ∧
    dictGet (X402.merchantStep
        (X402.MerchantState.mk [("i1", X402.Invoice.mk "C" "paid" 5 0)] "g" "production")
        (X402.MerchantOp.retrieve "i1")).active_invoices
      "i1" = some (X402.Invoice.mk "C" "paid" 5 0) ∧
    (((X402.Invoice.mk "C" "paid" 5 0).status = "paid" →
        (X402.Invoice.mk "C" "paid" 5 0).status = "paid" ∧
        (X402.Invoice.mk "C" "paid" 5 0).content = (X402.Invoice.mk "C" "paid" 5 0).content) ∧
      ((X402.Invoice.mk "C" "paid" 5 0).status ≠ "paid" →
        (X402.Invoice.mk "C" "paid" 5 0).status = "paid" →
        ∃ gw, X402.MerchantOp.retrieve "i1" = X402.MerchantOp.verify gw "i1" ∧
          ((X402.MerchantState.mk [("i1", X402.Invoice.mk "C" "paid" 5 0)]
              "g" "production").mode = "demo" ∨
            X402.gatewayConfirms gw = true))) :=
  ⟨rfl, rfl,
   c1_theorem _ (X402.MerchantOp.retrieve "i1") "i1" _ _
     (fun _ _ _ _ h => nomatch h) rfl rfl⟩

/-- C4: with a fresh uuid oracle (the model of `uuid.uuid4()` randomness),
`create_locked_content` mints a brand-new invoice whose initial status is
`unpaid`, whose id was never used before, and leaves every other invoice
record untouched — in every mode (the mode is universally quantified, so
both demo and production are covered). -/
theorem c4_theorem (s : X402.MerchantState) (u : String) (n : ℕ)
    (content : String) (p : ℚ)
    (hfresh : dictGet s.active_invoices (X402.createdId s u) = none) :
    (X402.create_locked_content s u n content p).1.invoice_id = X402.createdId s u ∧
    dictGet (X402.create_locked_content s u n content p).2.active_invoices
      (X402.createdId s u) = some (X402.Invoice.mk content "unpaid" p n) ∧
    dictGet s.active_invoices
      (X402.create_locked_content s u n content p).1.invoice_id = none ∧
    ∀ k, k ≠ (X402.create_locked_content s u n content p).1.invoice_id →
      dictGet (X402.create_locked_content s u n content p).2.active_invoices k =
        dictGet s.active_invoices k := by
  refine ⟨rfl, ?_, hfresh, ?_⟩
  · simp only [X402.create_locked_content]
    exact dictGet_dictSet_self _ _ _
  · intro k hk
    simp only [X402.create_locked_content]
    exact dictGet_dictSet_ne _ _ _ _ hk

/-- Witness for C4: a demo-mode merchant and a concrete uuid oracle. -/
theorem c4_theorem_witness :
    dictGet (X402.initMerchant none none).active_invoices
      (X402.createdId (X402.initMerchant none none) "deadbeef-1234") = none ∧
    ((X402.create_locked_content (X402.initMerchant none none)
        "deadbeef-1234" 7 "CODE" 5).1.invoice_id =
      X402.createdId (X402.initMerchant none none) "deadbeef-1234" ∧
    dictGet (X402.create_locked_content (X402.initMerchant none none)
        "deadbeef-1234" 7 "CODE" 5).2.active_invoices
      (X402.createdId (X402.initMerchant none none) "deadbeef-1234") =
        some (X402.Invoice.mk "CODE" "unpaid" 5 7) ∧
    dictGet (X402.initMerchant none none).active_invoices
      (X402.create_locked_content (X402.initMerchant none none)
        "deadbeef-1234" 7 "CODE" 5).1.invoice_id = none ∧
    ∀ k, k ≠ (X402.create_locked_content (X402.initMerchant none none)
        "deadbeef-1234" 7 "CODE" 5).1.invoice_id →
      dictGet (X402.create_locked_content (X402.initMerchant none none)
          "deadbeef-1234" 7 "CODE" 5).2.active_invoices k =
        dictGet (X402.initMerchant none none).active_invoices k) :=
  ⟨rfl, c4_theorem (X402.initMerchant none none) "deadbeef-1234" 7 "CODE" 5 rfl⟩

/-- C7: `retrieve_content` returns the locked content exactly when the
invoice exists and is paid; in every other case (unpaid invoice or unknown
id) it raises the payment-required `PermissionError` and exposes no
content. -/
theorem c7_theorem (s : X402.MerchantState) (id : String) :
    (∀ c, X402.retrieve_content s id = Except.ok c ↔
      ∃ inv, dictGet s.active_invoices id = some inv ∧
        inv.status = "paid" ∧ inv.content = c) ∧
    ((¬ ∃ inv, dictGet s.active_invoices id = some inv ∧ inv.status = "paid") →
      X402.retrieve_content s id =
        Except.error "402 Payment Required: Content is locked.") := by
  constructor
  · intro c
    rcases hgd : dictGet s.active_invoices id with _ | inv
    · simp [X402.retrieve_content, hgd]
    · by_cases hst : inv.status = "paid"
      · simp only [X402.retrieve_content, hgd, if_pos hst]
        constructor
        · intro h
          exact ⟨inv, rfl, hst, Except.ok.inj h⟩
        · rintro ⟨inv2, h2, _, hc⟩
          obtain rfl := Option.some.inj h2
          rw [hc]
      · simp only [X402.retrieve_content, hgd, if_neg hst]
        constructor
        · intro h
          exact Except.noConfusion h
        · rintro ⟨inv2, h2, hs2, _⟩
          obtain rfl := Option.some.inj h2
          exact absurd hs2 hst
  · intro hno
    rcases hgd : dictGet s.active_invoices id with _ | inv
    · simp [X402.retrieve_content, hgd]
    · have hst : ¬ inv.status = "paid" := fun hst => hno ⟨inv, hgd, hst⟩
      simp [X402.retrieve_content, hgd, if_neg hst]


/-! ### Claims C3, C6 — the verification engine -/

/-- C3 (code evaluated at the failing input): on a verification call where
every Docker call succeeds, the trace begins with the
`containers.run(..., detach=True)` call — which already starts the entry
command — and only afterwards are `solution.py` and `test_suite.py`
injected.  The claim that both artifacts are in place before the entry
command begins executing is therefore violated on every call. -/
theorem c3_theorem :
    (Sandbox.run_verification Sandbox.oracleAllOk 30).2 =
      [Sandbox.DockerStep.runCreate true, Sandbox.DockerStep.copy "solution.py",
       Sandbox.DockerStep.copy "test_suite.py", Sandbox.DockerStep.wait,
       Sandbox.DockerStep.logs, Sandbox.DockerStep.remove] ∧
    (Sandbox.run_verification Sandbox.oracleAllOk 30).2.head? =
      some (Sandbox.DockerStep.runCreate true) ∧
    List.indexOf (Sandbox.DockerStep.runCreate true)
        (Sandbox.run_verification Sandbox.oracleAllOk 30).2 <
      List.indexOf (Sandbox.DockerStep.copy "solution.py")
        (Sandbox.run_verification Sandbox.oracleAllOk 30).2 ∧
    List.indexOf (Sandbox.DockerStep.runCreate true)
        (Sandbox.run_verification Sandbox.oracleAllOk 30).2 <
      List.indexOf (Sandbox.DockerStep.copy "test_suite.py")
        (Sandbox.run_verification Sandbox.oracleAllOk 30).2 := by
  decide

/-- C6: on every exit path of `run_verification` — success, failing tests,
copy error, wait timeout, logs error, or a failed container start — the
number of containers created equals the number of force-removals: no
container is ever leaked. -/
theorem c6_theorem (o : Sandbox.DockerOracle) (t : ℕ) :
    Sandbox.createdCount (Sandbox.run_verification o t).2 =
      Sandbox.removedCount (Sandbox.run_verification o t).2 := by
  obtain ⟨r, cs, ct, w, k, l, rm⟩ := o
  cases r <;> cases cs <;> cases ct <;> cases w <;> cases l <;>
    simp [Sandbox.run_verification, Sandbox.createdCount, Sandbox.removedCount,
      List.count_cons, List.count_nil]

/-- Witness for C7: applied at a concrete state holding one unpaid invoice. -/
theorem c7_theorem_witness :
    (∀ c, X402.retrieve_content
        (X402.MerchantState.mk [("i9", X402.Invoice.mk "C" "unpaid" 5 0)] "g" "demo")
        "i9" = Except.ok c ↔
      ∃ inv, dictGet (X402.MerchantState.mk
          [("i9", X402.Invoice.mk "C" "unpaid" 5 0)] "g" "demo").active_invoices
        "i9" = some inv ∧ inv.status = "paid" ∧ inv.content = c) ∧
    ((¬ ∃ inv, dictGet (X402.MerchantState.mk
          [("i9", X402.Invoice.mk "C" "unpaid" 5 0)] "g" "demo").active_invoices
        "i9" = some inv ∧ inv.status = "paid") →
      X402.retrieve_content
        (X402.MerchantState.mk [("i9", X402.Invoice.mk "C" "unpaid" 5 0)] "g" "demo")
        "i9" = Except.error "402 Payment Required: Content is locked.") :=
  c7_theorem _ "i9"

/-! ### Claim C2 — the static validation gate -/

/-- `findSome?` returns the image of the first element on which `f` fires. -/
theorem findSome_first {α β : Type} (f : α → Option β) :
    ∀ (l : List α) (i : ℕ) (n : α) (v : β),
      l.get? i = some n → f n = some v →
      (∀ j, j < i → (l.get? j).bind f = none) →
      l.findSome? f = some v := by
  intro l
  induction l with
  | nil =>
    intro i n v hi _ _
    simp at hi
  | cons a t ih =>
    intro i n v hi hv hj
    cases i with
    | zero =>
      simp only [List.get?_cons_zero] at hi
      obtain rfl := Option.some.inj hi
      simp [List.findSome?_cons, hv]
    | succ i' =>
      have h0 := hj 0 (Nat.succ_pos _)
      simp only [List.get?_cons_zero, Option.some_bind] at h0
      simp only [List.get?_cons_succ] at hi
      rw [List.findSome?_cons, h0]
      exact ih i' n v hi hv (fun j hjj => hj (j + 1) (Nat.succ_lt_succ hjj))

/-- C2 (counterexample): the source `eval("x")` / `def f():` /
`    import os` contains both a forbidden import (`os`, walk position 5)
and a forbidden built-in call by direct unqualified name (`eval`, walk
position 3); the gate returns the forbidden-call rejection, not the
forbidden-import rejection the claim requires. -/
theorem c2_counterexample :
    (Validation.walkAst Validation.ce2_tree).get? 5 =
      some (Validation.Ast.importStmt ["os"]) ∧
    Validation.nodeViolation Validation._DEFAULT_FORBIDDEN_MODULES
        Validation._DEFAULT_FORBIDDEN_CALLS (Validation.Ast.importStmt ["os"]) =
      some ⟨false, "Forbidden import: os"⟩ ∧
    (Validation.walkAst Validation.ce2_tree).get? 3 =
      some (Validation.Ast.call (Validation.Ast.name "eval")
        [Validation.Ast.constant "x"]) ∧
    Validation.validate_patch_code Validation.ce2_src =
      ⟨false, "Forbidden call: eval()"⟩ := by
  refine ⟨?_, ?_, ?_, ?_⟩ <;> rfl

/-- C2 (amended): rules 1–3 are applied first in the stated order, but
rules 4 and 5 are evaluated together in one breadth-first walk of the
parse tree — for a non-empty, size-conforming, parsing source, the first
node in `ast.walk` order that is a forbidden import or a forbidden
unqualified call determines the verdict, whichever of the two kinds it
is. -/
theorem c2_theorem (src : Validation.PySource) (tree : Validation.Ast)
    (i : ℕ) (n : Validation.Ast) (v : Validation.ValidationResult)
    (hne : pyStrip src.text ≠ "")
    (hlen : ¬ src.text.length > 20000)
    (hp : src.parsed = Except.ok tree)
    (hi : (Validation.walkAst tree).get? i = some n)
    (hv : Validation.nodeViolation Validation._DEFAULT_FORBIDDEN_MODULES
      Validation._DEFAULT_FORBIDDEN_CALLS n = some v)
    (hfirst : ∀ j, j < i → ((Validation.walkAst tree).get? j).bind
      (Validation.nodeViolation Validation._DEFAULT_FORBIDDEN_MODULES
        Validation._DEFAULT_FORBIDDEN_CALLS) = none) :
    Validation.validate_patch_code src = v := by
  have hfs : (Validation.walkAst tree).findSome?
      (Validation.nodeViolation Validation._DEFAULT_FORBIDDEN_MODULES
        Validation._DEFAULT_FORBIDDEN_CALLS) = some v :=
    findSome_first _ _ i n v hi hv hfirst
  unfold Validation.validate_patch_code
  rw [if_neg hne, if_neg hlen, hp]
  simp only [hfs]

/-- Witness for C2 (amended): the counterexample source, whose first
violating walked node is the `eval` call at walk position 3. -/
theorem c2_theorem_witness :
    pyStrip Validation.ce2_src.text ≠ "" ∧
    ¬ Validation.ce2_src.text.length > 20000 ∧
    Validation.ce2_src.parsed = Except.ok Validation.ce2_tree ∧
    (Validation.walkAst Validation.ce2_tree).get? 3 =
      some (Validation.Ast.call (Validation.Ast.name "eval")
        [Validation.Ast.constant "x"]) ∧
    Validation.nodeViolation Validation._DEFAULT_FORBIDDEN_MODULES
        Validation._DEFAULT_FORBIDDEN_CALLS
        (Validation.Ast.call (Validation.Ast.name "eval")
          [Validation.Ast.constant "x"]) =
      some ⟨false, "Forbidden call: eval()"⟩ ∧
    (∀ j, j < 3 → ((Validation.walkAst Validation.ce2_tree).get? j).bind
      (Validation.nodeViolation Validation._DEFAULT_FORBIDDEN_MODULES
        Validation._DEFAULT_FORBIDDEN_CALLS) = none) ∧
    Validation.validate_patch_code Validation.ce2_src =
      ⟨false, "Forbidden call: eval()"⟩ :=
  ⟨by decide, by decide, rfl, rfl, rfl, by decide,
   c2_theorem Validation.ce2_src Validation.ce2_tree 3 _ _
     (by decide) (by decide) rfl rfl rfl (by decide)⟩

/-! ### Claim C5 — consensus selection -/

theorem dictGet_none_iff {α : Type} (d : List (String × α)) (k : String) :
    dictGet d k = none ↔ k ∉ d.map Prod.fst := by
  induction d with
  | nil => simp [dictGet]
  | cons hd tl ih =>
    obtain ⟨k0, v0⟩ := hd
    by_cases h : k0 = k
    · subst h
      simp [dictGet]
    · have h' : ¬ k = k0 := fun hh => h hh.symm
      simp [dictGet, h, ih, h']

theorem keys_dictSet_mem {α : Type} (d : List (String × α)) (k : String) (v m : α)
    (h : dictGet d k = some m) : (dictSet d k v).map Prod.fst = d.map Prod.fst := by
  induction d with
  | nil => simp [dictGet] at h
  | cons hd tl ih =>
    obtain ⟨k0, v0⟩ := hd
    by_cases h0 : k0 = k
    · subst h0
      simp [dictSet]
    · simp only [dictGet, if_neg h0] at h
      simp [dictSet, if_neg h0, ih h]

theorem mem_dictSet {α : Type} (d : List (String × α)) (k : String) (v : α)
    (p : String × α) (hp : p ∈ dictSet d k v) : p ∈ d ∨ p = (k, v) := by
  induction d with
  | nil =>
    simp [dictSet] at hp
    exact Or.inr hp
  | cons hd tl ih =>
    obtain ⟨k0, v0⟩ := hd
    by_cases h0 : k0 = k
    · subst h0
      simp only [dictSet, if_pos rfl] at hp
      rcases List.mem_cons.mp hp with h | h
      · exact Or.inr h
      · exact Or.inl (List.mem_cons_of_mem _ h)
    · simp only [dictSet, if_neg h0] at hp
      rcases List.mem_cons.mp hp with h | h
      · exact Or.inl (h ▸ List.mem_cons_self _ _)
      · rcases ih h with h' | h'
        · exact Or.inl (List.mem_cons_of_mem _ h')
        · exact Or.inr h'

theorem dictGet_of_mem_nodup {α : Type} (d : List (String × α))
    (hnd : (d.map Prod.fst).Nodup) (k : String) (m : α) (hm : (k, m) ∈ d) :
    dictGet d k = some m := by
  induction d with
  | nil => simp at hm
  | cons hd tl ih =>
    obtain ⟨k0, v0⟩ := hd
    simp only [List.map_cons, List.nodup_cons] at hnd
    rcases List.mem_cons.mp hm with h | h
    · obtain ⟨rfl, rfl⟩ := Prod.mk.inj h
      simp [dictGet]
    · have hk0 : k0 ≠ k := by
        intro he
        subst he
        exact hnd.1 (List.mem_map_of_mem Prod.fst h)
      simp [dictGet, hk0, ih hnd.2 h]

namespace Coord

theorem bucketsAdd_ne_nil (b : List (String × List Cand)) (key : String) (c : Cand) :
    bucketsAdd b key c ≠ [] := by
  unfold bucketsAdd
  rcases hg : dictGet b key with _ | members
  · simp
  · cases b with
    | nil => simp [dictGet] at hg
    | cons hd tl =>
      obtain ⟨k0, v0⟩ := hd
      by_cases h0 : k0 = key <;> simp [dictSet, h0]

theorem buildBuckets_go_ne_nil (cands : List Cand) :
    ∀ (b : List (String × List Cand)), b ≠ [] →
      cands.foldl (fun b c => bucketsAdd b (_normalize_code c.code.text) c) b ≠ [] := by
  induction cands with
  | nil => intro b hb; simpa using hb
  | cons c cs ih =>
    intro b _
    exact ih _ (bucketsAdd_ne_nil b _ c)

theorem buildBuckets_ne_nil (passing : List Cand) (h : passing ≠ []) :
    buildBuckets passing ≠ [] := by
  cases passing with
  | nil => exact absurd rfl h
  | cons c cs =>
    unfold buildBuckets
    simp only [List.foldl_cons]
    exact buildBuckets_go_ne_nil cs _ (bucketsAdd_ne_nil [] _ c)

theorem bucketsAdd_members_ne_nil (b : List (String × List Cand)) (key : String)
    (c : Cand) (hinv : ∀ p ∈ b, p.2 ≠ []) :
    ∀ p ∈ bucketsAdd b key c, p.2 ≠ [] := by
  intro p hp
  unfold bucketsAdd at hp
  rcases hg : dictGet b key with _ | members <;> rw [hg] at hp
  · rcases List.mem_append.mp hp with h | h
    · exact hinv p h
    · simp only [List.mem_singleton] at h
      subst h
      simp
  · rcases mem_dictSet _ _ _ _ hp with h | h
    · exact hinv p h
    · subst h
      simp

theorem buildBuckets_go_members_ne_nil (cands : List Cand) :
    ∀ (b : List (String × List Cand)), (∀ p ∈ b, p.2 ≠ []) →
      ∀ p ∈ cands.foldl (fun b c => bucketsAdd b (_normalize_code c.code.text) c) b,
        p.2 ≠ [] := by
  induction cands with
  | nil => intro b hb; simpa using hb
  | cons c cs ih =>
    intro b hb
    exact ih _ (bucketsAdd_members_ne_nil b _ c hb)

theorem buildBuckets_members_ne_nil (passing : List Cand) :
    ∀ p ∈ buildBuckets passing, p.2 ≠ [] :=
  buildBuckets_go_members_ne_nil passing [] (by simp)

theorem bucketsAdd_keys_nodup (b : List (String × List Cand)) (key : String)
    (c : Cand) (hinv : (b.map Prod.fst).Nodup) :
    ((bucketsAdd b key c).map Prod.fst).Nodup := by
  unfold bucketsAdd
  rcases hg : dictGet b key with _ | members
  · have hk : key ∉ b.map Prod.fst := (dictGet_none_iff b key).mp hg
    have hmap : ((b ++ [(key, [c])]).map Prod.fst) = b.map Prod.fst ++ [key] := by simp
    rw [hmap, List.nodup_append]
    refine ⟨hinv, List.nodup_singleton _, ?_⟩
    intro a ha hb
    simp only [List.mem_singleton] at hb
    subst hb
    exact hk ha
  · rw [keys_dictSet_mem b key _ members hg]
    exact hinv

theorem buildBuckets_go_keys_nodup (cands : List Cand) :
    ∀ (b : List (String × List Cand)), (b.map Prod.fst).Nodup →
      ((cands.foldl (fun b c => bucketsAdd b (_normalize_code c.code.text) c) b).map
        Prod.fst).Nodup := by
  induction cands with
  | nil => intro b hb; simpa using hb
  | cons c cs ih =>
    intro b hb
    exact ih _ (bucketsAdd_keys_nodup b _ c hb)

theorem buildBuckets_keys_nodup (passing : List Cand) :
    ((buildBuckets passing).map Prod.fst).Nodup :=
  buildBuckets_go_keys_nodup passing [] (by simp)

theorem maxBucketCount_cons (b : String × List Cand) (l : List (String × List Cand)) :
    maxBucketCount (b :: l) = max b.2.length (maxBucketCount l) := rfl

theorem le_maxBucketCount (l : List (String × List Cand)) (p : String × List Cand)
    (hp : p ∈ l) : p.2.length ≤ maxBucketCount l := by
  induction l with
  | nil => simp at hp
  | cons b rest ih =>
    rw [maxBucketCount_cons]
    rcases List.mem_cons.mp hp with h | h
    · subst h
      exact le_max_left _ _
    · exact (ih h).trans (le_max_right _ _)

theorem maxBucketCount_le (l : List (String × List Cand)) (c : ℕ)
    (h : ∀ p ∈ l, p.2.length ≤ c) : maxBucketCount l ≤ c := by
  induction l with
  | nil => simp [maxBucketCount]
  | cons b rest ih =>
    rw [maxBucketCount_cons]
    exact max_le (h b (List.mem_cons_self _ _))
      (ih fun p hp => h p (List.mem_cons_of_mem _ hp))

theorem maxBucketCount_attained (l : List (String × List Cand)) (h : l ≠ []) :
    ∃ p ∈ l, p.2.length = maxBucketCount l := by
  induction l with
  | nil => exact absurd rfl h
  | cons b rest ih =>
    rw [maxBucketCount_cons]
    rcases eq_or_ne rest [] with hr | hr
    · subst hr
      exact ⟨b, List.mem_cons_self _ _, by simp [maxBucketCount]⟩
    · obtain ⟨p, hp, hpv⟩ := ih hr
      rcases le_total (maxBucketCount rest) b.2.length with hle | hle
      · exact ⟨b, List.mem_cons_self _ _, (max_eq_left hle).symm⟩
      · exact ⟨p, List.mem_cons_of_mem _ hp, hpv.trans (max_eq_right hle).symm⟩

theorem selectLoop_all_le (l : List (String × List Cand)) :
    ∀ (k : String) (c : Int), (∀ p ∈ l, (p.2.length : Int) ≤ c) →
      selectLoop l (some k) c = some k := by
  induction l with
  | nil => intro k c _; rfl
  | cons b rest ih =>
    intro k c h
    obtain ⟨k', m⟩ := b
    have hle : ¬ ((m.length : Int) > c) :=
      not_lt.mpr (h (k', m) (List.mem_cons_self _ _))
    simp only [selectLoop, if_neg hle]
    exact ih k c fun p hp => h p (List.mem_cons_of_mem _ hp)

theorem selectLoop_first_max (l : List (String × List Cand)) :
    ∀ (k : String) (c : Int), (∃ p ∈ l, (p.2.length : Int) > c) →
      selectLoop l (some k) c =
        (l.find? (fun p => p.2.length = maxBucketCount l)).map Prod.fst := by
  induction l with
  | nil =>
    intro k c h
    simp at h
  | cons b rest ih =>
    intro k c hex
    obtain ⟨k', m⟩ := b
    by_cases hgt : (m.length : Int) > c
    · simp only [selectLoop, if_pos hgt]
      by_cases hex2 : ∃ p ∈ rest, (p.2.length : Int) > (m.length : Int)
      · rw [ih k' (m.length : Int) hex2]
        obtain ⟨p, hp, hpgt⟩ := hex2
        have hmax : m.length < maxBucketCount rest :=
          lt_of_lt_of_le (by exact_mod_cast hpgt) (le_maxBucketCount rest p hp)
        have hml : maxBucketCount ((k', m) :: rest) = maxBucketCount rest := by
          rw [maxBucketCount_cons]
          exact max_eq_right hmax.le
        have hhead : ¬ (m.length = maxBucketCount ((k', m) :: rest)) := by
          rw [hml]
          exact hmax.ne
        rw [List.find?_cons_of_neg _ (by simpa using hhead), hml]
      · push_neg at hex2
        have hall : ∀ p ∈ rest, (p.2.length : Int) ≤ (m.length : Int) := hex2
        rw [selectLoop_all_le rest k' (m.length : Int) hall]
        have hml : maxBucketCount ((k', m) :: rest) = m.length := by
          rw [maxBucketCount_cons]
          exact max_eq_left (maxBucketCount_le rest m.length
            fun p hp => by exact_mod_cast hall p hp)
        rw [List.find?_cons_of_pos _ (by simpa using hml.symm)]
        rfl
    · simp only [selectLoop, if_neg hgt]
      have hex2 : ∃ p ∈ rest, (p.2.length : Int) > c := by
        obtain ⟨p, hp, hpgt⟩ := hex
        rcases List.mem_cons.mp hp with h | h
        · subst h
          exact absurd hpgt hgt
        · exact ⟨p, h, hpgt⟩
      rw [ih k c hex2]
      obtain ⟨p, hp, hpgt⟩ := hex2
      have hmax : m.length < maxBucketCount rest := by
        have h1 : (m.length : Int) ≤ c := not_lt.mp hgt
        have h2 : (m.length : Int) < (p.2.length : Int) := lt_of_le_of_lt h1 hpgt
        exact lt_of_lt_of_le (by exact_mod_cast h2) (le_maxBucketCount rest p hp)
      have hml : maxBucketCount ((k', m) :: rest) = maxBucketCount rest := by
        rw [maxBucketCount_cons]
        exact max_eq_right hmax.le
      have hhead : ¬ (m.length = maxBucketCount ((k', m) :: rest)) := by
        rw [hml]
        exact hmax.ne
      rw [List.find?_cons_of_neg _ (by simpa using hhead), hml]

theorem selectLoop_start (l : List (String × List Cand)) (hl : l ≠ []) :
    selectLoop l none (-1) =
      (l.find? (fun p => p.2.length = maxBucketCount l)).map Prod.fst := by
  have hex : ∃ p ∈ l, (p.2.length : Int) > (-1 : Int) := by
    cases l with
    | nil => exact absurd rfl hl
    | cons b rest =>
      refine ⟨b, List.mem_cons_self _ _, ?_⟩
      have : (0 : Int) ≤ (b.2.length : Int) := Int.ofNat_nonneg _
      omega
  cases l with
  | nil => exact absurd rfl hl
  | cons b rest =>
    obtain ⟨k', m⟩ := b
    have hgt : (m.length : Int) > (-1 : Int) := by
      have : (0 : Int) ≤ (m.length : Int) := Int.ofNat_nonneg _
      omega
    simp only [selectLoop, if_pos hgt]
    by_cases hex2 : ∃ p ∈ rest, (p.2.length : Int) > (m.length : Int)
    · rw [selectLoop_first_max rest k' (m.length : Int) hex2]
      obtain ⟨p, hp, hpgt⟩ := hex2
      have hmax : m.length < maxBucketCount rest :=
        lt_of_lt_of_le (by exact_mod_cast hpgt) (le_maxBucketCount rest p hp)
      have hml : maxBucketCount ((k', m) :: rest) = maxBucketCount rest := by
        rw [maxBucketCount_cons]
        exact max_eq_right hmax.le
      have hhead : ¬ (m.length = maxBucketCount ((k', m) :: rest)) := by
        rw [hml]
        exact hmax.ne
      rw [List.find?_cons_of_neg _ (by simpa using hhead), hml]
    · push_neg at hex2
      rw [selectLoop_all_le rest k' (m.length : Int) hex2]
      have hml : maxBucketCount ((k', m) :: rest) = m.length := by
        rw [maxBucketCount_cons]
        exact max_eq_left (maxBucketCount_le rest m.length
          fun p hp => by exact_mod_cast hex2 p hp)
      rw [List.find?_cons_of_pos _ (by simpa using hml.symm)]
      rfl

end Coord

/-- C5: for every non-empty passing list, `_select_consensus_winner`
returns exactly the spec-side winner — the first candidate ever added to
the first-seen bucket of strictly greatest member count under
normalized-code grouping — and always returns a winner; being a pure
function of the passing list, repeated selection over the same list
yields the same winner. -/
theorem c5_theorem (passing : List Coord.Cand) (hne : passing ≠ []) :
    Coord._select_consensus_winner passing = Coord.specConsensusWinner passing ∧
    ∃ w, Coord._select_consensus_winner passing = some w := by
  have hbne : Coord.buildBuckets passing ≠ [] := Coord.buildBuckets_ne_nil passing hne
  have hnd := Coord.buildBuckets_keys_nodup passing
  obtain ⟨pb, hpbmem, hpbmax⟩ :=
    Coord.maxBucketCount_attained (Coord.buildBuckets passing) hbne
  have hfind : ∃ q, (Coord.buildBuckets passing).find?
      (fun p => p.2.length = Coord.maxBucketCount (Coord.buildBuckets passing)) = some q := by
    have : ((Coord.buildBuckets passing).find?
        (fun p => p.2.length = Coord.maxBucketCount (Coord.buildBuckets passing))).isSome := by
      rw [List.find?_isSome]
      exact ⟨pb, hpbmem, by simpa using hpbmax⟩
    exact Option.isSome_iff_exists.mp this
  obtain ⟨q, hq⟩ := hfind
  have hqmem : q ∈ Coord.buildBuckets passing := List.mem_of_find?_eq_some hq
  have hqget : dictGet (Coord.buildBuckets passing) q.1 = some q.2 :=
    dictGet_of_mem_nodup _ hnd q.1 q.2 (by simpa using hqmem)
  have hqne : q.2 ≠ [] := Coord.buildBuckets_members_ne_nil passing q hqmem
  have hsel : Coord._select_consensus_winner passing = q.2.head? := by
    simp only [Coord._select_consensus_winner]
    rw [Coord.selectLoop_start _ hbne, hq]
    simp [hqget]
  constructor
  · rw [hsel]
    simp only [Coord.specConsensusWinner]
    rw [hq]
    rfl
  · rw [hsel]
    cases hc : q.2 with
    | nil => exact absurd hc hqne
    | cons a t => exact ⟨a, by simp⟩

/-- Witness for C5: three passing candidates, two sharing normalized code;
the selector equals the spec-side winner and returns one. -/
theorem c5_theorem_witness :
    ([Coord.candB, Coord.candA1, Coord.candA2] : List Coord.Cand) ≠ [] ∧
    (Coord._select_consensus_winner [Coord.candB, Coord.candA1, Coord.candA2] =
      Coord.specConsensusWinner [Coord.candB, Coord.candA1, Coord.candA2] ∧
    ∃ w, Coord._select_consensus_winner [Coord.candB, Coord.candA1, Coord.candA2] =
      some w) :=
  ⟨List.cons_ne_nil _ _,
   c5_theorem [Coord.candB, Coord.candA1, Coord.candA2] (List.cons_ne_nil _ _)⟩

/-! ### Claim C10 — the silent clone-target fallback -/

namespace Coord

theorem procCand_agnostic (o : RunOracle) (s1 s2 : String) (st1 st2 : LoopState)
    (cand : Cand) (he : st1.events = st2.events) (hl : st1.logs = st2.logs)
    (hp : st1.passing = st2.passing)
    (hb : st1.validation_blocked = st2.validation_blocked)
    (hc : st1.calls.length = st2.calls.length) :
    (procCand o s1 st1 cand).events = (procCand o s2 st2 cand).events ∧
    (procCand o s1 st1 cand).logs = (procCand o s2 st2 cand).logs ∧
    (procCand o s1 st1 cand).passing = (procCand o s2 st2 cand).passing ∧
    (procCand o s1 st1 cand).validation_blocked =
      (procCand o s2 st2 cand).validation_blocked ∧
    (procCand o s1 st1 cand).calls.length = (procCand o s2 st2 cand).calls.length := by
  obtain ⟨e1, l1, p1, b1, c1⟩ := st1
  obtain ⟨e2, l2, p2, b2, c2⟩ := st2
  simp only at he hl hp hb hc
  subst he
  subst hl
  subst hp
  subst hb
  by_cases hv : (Validation.validate_patch_code cand.code).ok = false
  · simp [procCand, hv, hc]
  · simp [procCand, hv, hc]

theorem procFold_agnostic (o : RunOracle) (s1 s2 : String) :
    ∀ (cands : List Cand) (st1 st2 : LoopState),
      st1.events = st2.events → st1.logs = st2.logs → st1.passing = st2.passing →
      st1.validation_blocked = st2.validation_blocked →
      st1.calls.length = st2.calls.length →
      (cands.foldl (procCand o s1) st1).events =
        (cands.foldl (procCand o s2) st2).events ∧
      (cands.foldl (procCand o s1) st1).logs =
        (cands.foldl (procCand o s2) st2).logs ∧
      (cands.foldl (procCand o s1) st1).passing =
        (cands.foldl (procCand o s2) st2).passing ∧
      (cands.foldl (procCand o s1) st1).validation_blocked =
        (cands.foldl (procCand o s2) st2).validation_blocked ∧
      (cands.foldl (procCand o s1) st1).calls.length =
        (cands.foldl (procCand o s2) st2).calls.length := by
  intro cands
  induction cands with
  | nil => intro st1 st2 he hl hp hb hc; exact ⟨he, hl, hp, hb, hc⟩
  | cons c cs ih =>
    intro st1 st2 he hl hp hb hc
    obtain ⟨he', hl', hp', hb', hc'⟩ := procCand_agnostic o s1 s2 st1 st2 c he hl hp hb hc
    simpa using ih (procCand o s1 st1 c) (procCand o s2 st2 c) he' hl' hp' hb' hc'

theorem solveWithTarget_events_indep (o : RunOracle) (evs0 : List Ev)
    (cands : List Cand) (t1 t2 : String) :
    (solveWithTarget o evs0 cands t1).events =
      (solveWithTarget o evs0 cands t2).events := by
  obtain ⟨he, hl, hp, hb, _⟩ :=
    procFold_agnostic o (run_tests_sh t1) (run_tests_sh t2) cands
      ⟨evs0, [], [], 0, []⟩ ⟨evs0, [], [], 0, []⟩ rfl rfl rfl rfl rfl
  simp only [solveWithTarget]
  by_cases hpe :
      (cands.foldl (procCand o (run_tests_sh t1)) ⟨evs0, [], [], 0, []⟩).passing.isEmpty
  · rw [if_pos hpe, if_pos (hp ▸ hpe), he]
  · rw [if_neg hpe, if_neg (hp ▸ hpe)]
    rcases hsel : _select_consensus_winner
        (cands.foldl (procCand o (run_tests_sh t1)) ⟨evs0, [], [], 0, []⟩).passing
      with _ | winner <;>
      rw [hp] at hsel <;> simp only [hsel, hp ▸ hsel]
    · rw [he]
    · rw [he, hl, hp, hb]

end Coord

/-- C10 (counterexample): for the issue URL `https://[x/a/b` — whose host
is certainly not `github.com` — `urlsplit` raises
`ValueError("Invalid IPv6 URL")`, so `solve_issue` does not silently
substitute the fallback repository and proceed: it emits a terminal error
event and performs no verification call. -/
theorem c10_counterexample :
    Coord.urlsplit "https://[x/a/b" = Except.error "Invalid IPv6 URL" ∧
    (Coord.solve_issue "https://[x/a/b" Coord.c10oracle).events =
      [Coord.Ev.event "🔍 **Analyzing Issue:** https://[x/a/b",
       Coord.Ev.event
         "📡 **Delegating to Miner Network:** Requesting 3 redundant solutions...",
       Coord.Ev.event "📦 Patch received from **miner-t**",
       Coord.Ev.error "❌ Unexpected error in workflow: Invalid IPv6 URL"] ∧
    (Coord.solve_issue "https://[x/a/b" Coord.c10oracle).calls = [] := by
  refine ⟨?_, ?_, ?_⟩ <;> rfl

/-- C10 (amended): for every issue URL that `urlsplit` parses without
raising, if the netloc is not exactly `github.com` or the path has fewer
than two non-empty segments, `solve_issue` substitutes the fixed fallback
repository as clone target and proceeds, and the emitted event stream is
exactly what it would be with any other clone target — no error or
warning event about the substitution is produced. -/
theorem c10_theorem (url : String) (p : Coord.SplitResult) (o : Coord.RunOracle)
    (hok : Coord.urlsplit url = Except.ok p)
    (hbad : p.netloc ≠ "github.com" ∨
      ((pySplitChar '/' p.path).filter (fun s => !(s == ""))).length < 2) :
    Coord.computeTargetRepoUrl url = Except.ok Coord.fallbackRepoUrl ∧
    Coord.solve_issue url o =
      Coord.solve_issueGivenTarget url Coord.fallbackRepoUrl o ∧
    ∀ t1 t2, (Coord.solve_issueGivenTarget url t1 o).events =
      (Coord.solve_issueGivenTarget url t2 o).events := by
  have htarget : Coord.computeTargetRepoUrl url = Except.ok Coord.fallbackRepoUrl := by
    simp only [Coord.computeTargetRepoUrl, hok]
    have hcond : ¬ (2 ≤ ((pySplitChar '/' p.path).filter (fun s => !(s == ""))).length ∧
        p.netloc = "github.com") := by
      rintro ⟨h2, hn⟩
      rcases hbad with hb | hb
      · exact hb hn
      · omega
    rw [if_neg hcond]
  refine ⟨htarget, ?_, ?_⟩
  · simp only [Coord.solve_issue, Coord.solve_issueGivenTarget]
    cases o.net.raises with
    | some msg => rfl
    | none =>
      by_cases hce : (Coord.collectCands o.net.emissions).isEmpty
      · simp [hce]
      · simp only [hce, if_false, Bool.false_eq_true]
        rw [htarget]
  · intro t1 t2
    simp only [Coord.solve_issueGivenTarget]
    cases o.net.raises with
    | some msg => rfl
    | none =>
      by_cases hce : (Coord.collectCands o.net.emissions).isEmpty
      · simp [hce]
      · simp only [hce, if_false, Bool.false_eq_true]
        exact Coord.solveWithTarget_events_indep o _ _ t1 t2

/-- Witness for C10 (amended): the parseable non-GitHub URL
`https://gitlab.com/a/b` with the concrete one-candidate oracle. -/
theorem c10_theorem_witness :
    Coord.urlsplit "https://gitlab.com/a/b" =
      Except.ok ⟨"https", "gitlab.com", "/a/b", "", ""⟩ ∧
    ((⟨"https", "gitlab.com", "/a/b", "", ""⟩ : Coord.SplitResult).netloc ≠
      "github.com" ∨
      ((pySplitChar '/'
        (⟨"https", "gitlab.com", "/a/b", "", ""⟩ : Coord.SplitResult).path).filter
          (fun s => !(s == ""))).length < 2) ∧
    (Coord.computeTargetRepoUrl "https://gitlab.com/a/b" =
      Except.ok Coord.fallbackRepoUrl ∧
    Coord.solve_issue "https://gitlab.com/a/b" Coord.c10oracle =
      Coord.solve_issueGivenTarget "https://gitlab.com/a/b"
        Coord.fallbackRepoUrl Coord.c10oracle ∧
    ∀ t1 t2, (Coord.solve_issueGivenTarget "https://gitlab.com/a/b" t1
        Coord.c10oracle).events =
      (Coord.solve_issueGivenTarget "https://gitlab.com/a/b" t2
        Coord.c10oracle).events) :=
  ⟨rfl, Or.inl (by decide),
   c10_theorem "https://gitlab.com/a/b" ⟨"https", "gitlab.com", "/a/b", "", ""⟩
     Coord.c10oracle rfl (Or.inl (by decide))⟩

/-! ### Claim C9 — terminal events of the progress stream -/

namespace Coord

theorem collectEvents_all_event (ems : List NetEmission) :
    ∀ e ∈ collectEvents ems, ∃ t, e = Ev.event t := by
  intro e he
  simp only [collectEvents, List.mem_map] at he
  obtain ⟨em, _, rfl⟩ := he
  cases em <;> exact ⟨_, rfl⟩

theorem procCand_events_shape (o : RunOracle) (script : String) (st : LoopState)
    (c : Cand) :
    ∃ t, (procCand o script st c).events = st.events ++ [Ev.event t] := by
  unfold procCand
  by_cases hv : (Validation.validate_patch_code c.code).ok = false
  · exact ⟨_, by rw [if_pos hv]⟩
  · exact ⟨_, by rw [if_neg hv]⟩

theorem procFold_events_shape (o : RunOracle) (script : String) :
    ∀ (cands : List Cand) (st : LoopState),
      ∃ suf, (cands.foldl (procCand o script) st).events = st.events ++ suf ∧
        ∀ e ∈ suf, ∃ t, e = Ev.event t := by
  intro cands
  induction cands with
  | nil => intro st; exact ⟨[], by simp, by simp⟩
  | cons c cs ih =>
    intro st
    obtain ⟨t0, h0⟩ := procCand_events_shape o script st c
    obtain ⟨suf, hsuf, hall⟩ := ih (procCand o script st c)
    refine ⟨Ev.event t0 :: suf, ?_, ?_⟩
    · simp only [List.foldl_cons]
      rw [hsuf, h0]
      simp
    · intro e he
      rcases List.mem_cons.mp he with h | h
      · exact ⟨t0, h⟩
      · exact hall e h

/-- A stream of plain events followed by one final element: the final
element is the last, and every other element is a plain event. -/
theorem lastOnly (P : List Ev) (L : Ev) (hP : ∀ e ∈ P, ∃ t, e = Ev.event t) :
    (P ++ [L]) ≠ [] ∧ (P ++ [L]).getLast? = some L ∧
    (∀ i e', (P ++ [L]).get? i = some e' →
      (∃ t, e' = Ev.event t) ∨ (e' = L ∧ i + 1 = (P ++ [L]).length)) := by
  refine ⟨by simp, by simp, ?_⟩
  intro i e' hi
  rcases lt_trichotomy i P.length with hlt | heq | hgt
  · left
    rw [List.get?_append hlt] at hi
    exact hP e' (List.get?_mem hi)
  · right
    subst heq
    rw [List.get?_append_right (le_refl _)] at hi
    simp only [Nat.sub_self, List.get?_cons_zero] at hi
    exact ⟨(Option.some.inj hi).symm, by simp⟩
  · exfalso
    have hn : (P ++ [L]).get? i = none := by
      rw [List.get?_eq_none]
      simp only [List.length_append, List.length_singleton]
      omega
    rw [hn] at hi
    exact Option.noConfusion hi

/-- The events of the candidate-loop-onwards phase: the inherited prefix,
then plain loop events, then exactly one terminal element. -/
theorem solveWithTarget_events_shape (o : RunOracle) (evs0 : List Ev)
    (cands : List Cand) (target : String) :
    ∃ suf L, (solveWithTarget o evs0 cands target).events = (evs0 ++ suf) ++ [L] ∧
      (∀ e ∈ suf, ∃ t, e = Ev.event t) ∧
      ((∃ t, L = Ev.error t) ∨ (∃ b, L = Ev.complete b)) := by
  obtain ⟨suf0, hsuf, hsufall⟩ :=
    procFold_events_shape o (run_tests_sh target) cands ⟨evs0, [], [], 0, []⟩
  simp only [solveWithTarget]
  by_cases hpe : (cands.foldl (procCand o (run_tests_sh target))
      ⟨evs0, [], [], 0, []⟩).passing.isEmpty
  · rw [if_pos hpe]
    refine ⟨suf0,
      Ev.error "❌ No consensus reached. All patches failed verification.",
      ?_, hsufall, Or.inl ⟨_, rfl⟩⟩
    dsimp only
    rw [hsuf]
  · rw [if_neg hpe]
    rcases hsel : _select_consensus_winner
        (cands.foldl (procCand o (run_tests_sh target))
          ⟨evs0, [], [], 0, []⟩).passing with _ | winner <;> simp only [hsel]
    · refine ⟨suf0, Ev.error "❌ Unexpected error in workflow: KeyError",
        ?_, hsufall, Or.inl ⟨_, rfl⟩⟩
      dsimp only
      rw [hsuf]
    · refine ⟨suf0 ++ [Ev.event ("🏆 **Winner Found:** " ++ winner.miner_id ++
        ". Creating x402 Lock...")],
        Ev.complete ⟨winner.miner_id,
          String.intercalate "\n"
            ((cands.foldl (procCand o (run_tests_sh target))
                ⟨evs0, [], [], 0, []⟩).logs ++
             ["\n=== CONSENSUS ===\n" ++
               (if (cands.foldl (procCand o (run_tests_sh target))
                     ⟨evs0, [], [], 0, []⟩).validation_blocked ≠ 0 then
                 _consensus_report
                     (cands.foldl (procCand o (run_tests_sh target))
                       ⟨evs0, [], [], 0, []⟩).passing winner ++
                   "\n\nBlocked by validation: " ++
                   toString (cands.foldl (procCand o (run_tests_sh target))
                     ⟨evs0, [], [], 0, []⟩).validation_blocked
                else
                 _consensus_report
                   (cands.foldl (procCand o (run_tests_sh target))
                     ⟨evs0, [], [], 0, []⟩).passing winner) ++ "\n"]),
          (X402.create_locked_content (X402.initMerchant o.gatewayEnv o.modeEnv)
            o.uuid4 o.now winner.code.text).1.payment_link,
          (X402.create_locked_content (X402.initMerchant o.gatewayEnv o.modeEnv)
            o.uuid4 o.now winner.code.text).1.invoice_id⟩,
        ?_, ?_, Or.inr ⟨_, rfl⟩⟩
      · dsimp only
        rw [hsuf]
        simp
      · intro e he
        rcases List.mem_append.mp he with h | h
        · exact hsufall e h
        · rcases List.mem_cons.mp h with h' | h'
          · exact ⟨_, h'⟩
          · simp at h'

/-- The event stream of every run is a list of plain events followed by
exactly one final `error` or `complete` element. -/
theorem solve_issue_events_shape (url : String) (o : RunOracle) :
    ∃ P L, (solve_issue url o).events = P ++ [L] ∧
      (∀ e ∈ P, ∃ t, e = Ev.event t) ∧
      ((∃ t, L = Ev.error t) ∨ (∃ b, L = Ev.complete b)) := by
  have hev1 : ∀ e ∈
      ([Ev.event ("🔍 **Analyzing Issue:** " ++ url),
        Ev.event ("📡 **Delegating to Miner Network:** Requesting " ++
          toString o.redundancy ++ " redundant solutions...")] ++
        collectEvents o.net.emissions), ∃ t, e = Ev.event t := by
    intro e he
    rcases List.mem_append.mp he with h | h
    · rcases List.mem_cons.mp h with h' | h'
      · exact ⟨_, h'⟩
      · rcases List.mem_cons.mp h' with h'' | h''
        · exact ⟨_, h''⟩
        · simp at h''
    · exact collectEvents_all_event _ e h
  simp only [solve_issue]
  cases o.net.raises with
  | some msg => exact ⟨_, _, rfl, hev1, Or.inl ⟨_, rfl⟩⟩
  | none =>
    by_cases hce : (collectCands o.net.emissions).isEmpty
    · simp only [hce, if_true]
      exact ⟨_, _, rfl, hev1, Or.inl ⟨_, rfl⟩⟩
    · simp only [hce, if_false, Bool.false_eq_true]
      cases hct : computeTargetRepoUrl url with
      | error e => exact ⟨_, _, rfl, hev1, Or.inl ⟨_, rfl⟩⟩
      | ok target =>
        obtain ⟨suf, L, h1, h2, h3⟩ := solveWithTarget_events_shape o
          ([Ev.event ("🔍 **Analyzing Issue:** " ++ url),
            Ev.event ("📡 **Delegating to Miner Network:** Requesting " ++
              toString o.redundancy ++ " redundant solutions...")] ++
            collectEvents o.net.emissions)
          (collectCands o.net.emissions) target
        exact ⟨_ ++ suf, L, h1,
          fun e he => (List.mem_append.mp he).elim (hev1 e) (h2 e), h3⟩

end Coord

/-- C9: every run's progress stream is non-empty, its last event is a
terminal `error` or `complete`, and every non-final event is a plain
progress event — in particular no event of any kind follows a `complete`
or an `error`. -/
theorem c9_theorem (url : String) (o : Coord.RunOracle) :
    (Coord.solve_issue url o).events ≠ [] ∧
    (∀ e, (Coord.solve_issue url o).events.getLast? = some e →
      (∃ t, e = Coord.Ev.error t) ∨ (∃ b, e = Coord.Ev.complete b)) ∧
    (∀ i e', (Coord.solve_issue url o).events.get? i = some e' →
      (∃ t, e' = Coord.Ev.event t) ∨
        i + 1 = (Coord.solve_issue url o).events.length) := by
  obtain ⟨P, L, hPL, hPev, hLterm⟩ := Coord.solve_issue_events_shape url o
  obtain ⟨hne, hlast, hidx⟩ := Coord.lastOnly P L hPev
  rw [hPL]
  refine ⟨hne, ?_, ?_⟩
  · intro e he
    rw [hlast] at he
    obtain rfl := Option.some.inj he
    exact hLterm
  · intro i e' hi
    rcases hidx i e' hi with h | ⟨_, hlen⟩
    · exact Or.inl h
    · exact Or.inr hlen

/-! ### Claim C8 — timeouts are recorded and the run continues -/

namespace Coord

theorem procFold_logs_mono (o : RunOracle) (script : String) :
    ∀ (cands : List Cand) (st : LoopState) (x : String),
      x ∈ st.logs → x ∈ (cands.foldl (procCand o script) st).logs := by
  intro cands
  induction cands with
  | nil => intro st x hx; simpa using hx
  | cons c cs ih =>
    intro st x hx
    simp only [List.foldl_cons]
    apply ih
    unfold procCand
    by_cases hv : (Validation.validate_patch_code c.code).ok = false
    · rw [if_pos hv]
      dsimp only
      exact List.mem_append_left _ hx
    · rw [if_neg hv]
      dsimp only
      exact List.mem_append_left _ hx

theorem procFold_calls_spec (o : RunOracle) (script : String) :
    ∀ (cands : List Cand) (st : LoopState) (j : ℕ) (call : SandboxCall),
      (cands.foldl (procCand o script) st).calls.get? j = some call →
      st.calls.get? j = some call ∨
      ((call.result, call.dtrace) = Sandbox.run_verification (o.docker j) o.timeout ∧
        ("Miner: " ++ call.miner_id ++ "\nResult: " ++
          (if call.result.success then "PASS" else "FAIL") ++ "\nLogs: " ++
          call.result.logs ++ "\n---") ∈ (cands.foldl (procCand o script) st).logs) := by
  intro cands
  induction cands with
  | nil => intro st j call h; exact Or.inl h
  | cons c cs ih =>
    intro st j call h
    simp only [List.foldl_cons] at h ⊢
    rcases ih (procCand o script st c) j call h with hleft | hright
    · by_cases hv : (Validation.validate_patch_code c.code).ok = false
      · unfold procCand at hleft
        rw [if_pos hv] at hleft
        exact Or.inl hleft
      · unfold procCand at hleft
        rw [if_neg hv] at hleft
        dsimp only at hleft
        rcases lt_trichotomy j st.calls.length with hlt | heq | hgt
        · left
          rw [List.get?_append hlt] at hleft
          exact hleft
        · right
          subst heq
          rw [List.get?_append_right (le_refl _)] at hleft
          simp only [Nat.sub_self, List.get?_cons_zero] at hleft
          obtain rfl := Option.some.inj hleft
          refine ⟨rfl, ?_⟩
          apply procFold_logs_mono o script cs (procCand o script st c)
          unfold procCand
          rw [if_neg hv]
          dsimp only
          exact List.mem_append_right _ (by simp)
        · exfalso
          have hn : (st.calls ++
              [(⟨c.miner_id, script,
                (Sandbox.run_verification (o.docker st.calls.length) o.timeout).1,
                (Sandbox.run_verification (o.docker st.calls.length) o.timeout).2⟩ :
                SandboxCall)]).get? j = none := by
            rw [List.get?_eq_none]
            simp only [List.length_append, List.length_singleton]
            omega
          rw [hn] at hleft
          exact Option.noConfusion hleft
    · exact Or.inr hright

theorem procFold_passing_count (o : RunOracle) (script : String) :
    ∀ (cands : List Cand) (st : LoopState),
      st.passing.length = (st.calls.filter (fun x => x.result.success)).length →
      (cands.foldl (procCand o script) st).passing.length =
        ((cands.foldl (procCand o script) st).calls.filter
          (fun x => x.result.success)).length := by
  intro cands
  induction cands with
  | nil => intro st h; simpa using h
  | cons c cs ih =>
    intro st h
    simp only [List.foldl_cons]
    apply ih
    unfold procCand
    by_cases hv : (Validation.validate_patch_code c.code).ok = false
    · rw [if_pos hv]
      exact h
    · rw [if_neg hv]
      dsimp only
      rw [List.filter_append]
      by_cases hs : (Sandbox.run_verification (o.docker st.calls.length) o.timeout).1.success
      · simp [hs, h]
      · simp [hs, h]

theorem procFold_calls_length (o : RunOracle) (script : String) :
    ∀ (cands : List Cand) (st : LoopState),
      (cands.foldl (procCand o script) st).calls.length =
        st.calls.length +
          (cands.filter (fun c => (Validation.validate_patch_code c.code).ok)).length := by
  intro cands
  induction cands with
  | nil => intro st; simp
  | cons c cs ih =>
    intro st
    simp only [List.foldl_cons, List.filter_cons]
    rw [ih (procCand o script st c)]
    by_cases hv : (Validation.validate_patch_code c.code).ok = false
    · have hcalls : (procCand o script st c).calls = st.calls := by
        unfold procCand
        rw [if_pos hv]
      rw [hcalls, hv]
      simp
    · have hvt : (Validation.validate_patch_code c.code).ok = true :=
        Bool.not_eq_false _ ▸ (by simpa using hv)
      have hcalls : (procCand o script st c).calls.length = st.calls.length + 1 := by
        unfold procCand
        rw [if_neg hv]
        dsimp only
        simp
      rw [hcalls, hvt]
      simp
      omega

theorem solveWithTarget_parts (o : RunOracle) (evs0 : List Ev) (cands : List Cand)
    (target : String) :
    (solveWithTarget o evs0 cands target).calls =
      (cands.foldl (procCand o (run_tests_sh target)) ⟨evs0, [], [], 0, []⟩).calls ∧
    (solveWithTarget o evs0 cands target).passing =
      (cands.foldl (procCand o (run_tests_sh target)) ⟨evs0, [], [], 0, []⟩).passing ∧
    ∀ x ∈ (cands.foldl (procCand o (run_tests_sh target)) ⟨evs0, [], [], 0, []⟩).logs,
      x ∈ (solveWithTarget o evs0 cands target).logs := by
  simp only [solveWithTarget]
  by_cases hpe : (cands.foldl (procCand o (run_tests_sh target))
      ⟨evs0, [], [], 0, []⟩).passing.isEmpty
  · rw [if_pos hpe]
    exact ⟨rfl, rfl, fun x hx => hx⟩
  · rw [if_neg hpe]
    rcases hsel : _select_consensus_winner
        (cands.foldl (procCand o (run_tests_sh target))
          ⟨evs0, [], [], 0, []⟩).passing with _ | winner <;> simp only [hsel]
    · exact ⟨trivial, trivial, fun x hx => hx⟩
    · exact ⟨trivial, trivial, fun x hx => List.mem_append_left _ hx⟩

theorem solve_issue_calls_spec (url : String) (o : RunOracle) (j : ℕ)
    (call : SandboxCall)
    (h : (solve_issue url o).calls.get? j = some call) :
    (call.result, call.dtrace) = Sandbox.run_verification (o.docker j) o.timeout ∧
    ("Miner: " ++ call.miner_id ++ "\nResult: " ++
      (if call.result.success then "PASS" else "FAIL") ++ "\nLogs: " ++
      call.result.logs ++ "\n---") ∈ (solve_issue url o).logs := by
  simp only [solve_issue] at h ⊢
  rcases hr : o.net.raises with _ | msg <;> simp only [hr] at h ⊢
  · by_cases hce : (collectCands o.net.emissions).isEmpty
    · simp [hce] at h
    · simp only [hce, if_false, Bool.false_eq_true] at h ⊢
      rcases hct : computeTargetRepoUrl url with e | target <;>
        simp only [hct] at h ⊢
      · simp at h
      · obtain ⟨hcalls, _, hlogs⟩ :=
          solveWithTarget_parts o _ (collectCands o.net.emissions) target
        rw [hcalls] at h
        rcases procFold_calls_spec o (run_tests_sh target)
            (collectCands o.net.emissions) ⟨_, [], [], 0, []⟩ j call h
          with hl | ⟨hres, hlog⟩
        · simp at hl
        · exact ⟨hres, hlogs _ hlog⟩
  · simp at h

theorem solve_issue_passing_count (url : String) (o : RunOracle) :
    (solve_issue url o).passing.length =
      ((solve_issue url o).calls.filter (fun x => x.result.success)).length := by
  simp only [solve_issue]
  cases o.net.raises with
  | some msg => rfl
  | none =>
    by_cases hce : (collectCands o.net.emissions).isEmpty
    · simp [hce]
    · simp only [hce, if_false, Bool.false_eq_true]
      cases hct : computeTargetRepoUrl url with
      | error e => rfl
      | ok target =>
        obtain ⟨hcalls, hpass, _⟩ :=
          solveWithTarget_parts o _ (collectCands o.net.emissions) target
        rw [hcalls, hpass]
        exact procFold_passing_count o (run_tests_sh target)
          (collectCands o.net.emissions) ⟨_, [], [], 0, []⟩ rfl

theorem solve_issue_calls_length (url : String) (o : RunOracle)
    (h1 : o.net.raises = none)
    (h2 : ¬ (collectCands o.net.emissions).isEmpty)
    (t : String) (h3 : computeTargetRepoUrl url = Except.ok t) :
    (solve_issue url o).calls.length =
      ((collectCands o.net.emissions).filter
        (fun c => (Validation.validate_patch_code c.code).ok)).length := by
  simp only [solve_issue, h1]
  simp only [h2, if_false, Bool.false_eq_true]
  rw [h3]
  obtain ⟨hcalls, _, _⟩ := solveWithTarget_parts o _ (collectCands o.net.emissions) t
  rw [hcalls]
  rw [procFold_calls_length o (run_tests_sh t) (collectCands o.net.emissions)
    ⟨_, [], [], 0, []⟩]
  simp

end Coord

/-- C8: when a verification call's `container.wait` raises (the timeout),
`run_verification` returns a timeout-classified failed outcome after
killing and force-removing the container; in the orchestrator, such a
candidate's FAIL is recorded in the run log, it never enters the passing
set (passing count = successful-call count), and the loop still performs
one verification call per gate-accepted candidate — the run continues to
the following candidates. -/
theorem c8_theorem (url : String) (o : Coord.RunOracle) (i : ℕ) (e : String)
    (hrun : (o.docker i).run = Except.ok ())
    (hcs : (o.docker i).copySolution = Except.ok ())
    (hct : (o.docker i).copyTests = Except.ok ())
    (hw : (o.docker i).wait = Except.error e) :
    (Sandbox.run_verification (o.docker i) o.timeout).1 =
      ⟨false, "Sandbox timeout after " ++ toString o.timeout ++ "s"⟩ ∧
    Sandbox.DockerStep.kill ∈ (Sandbox.run_verification (o.docker i) o.timeout).2 ∧
    Sandbox.DockerStep.remove ∈ (Sandbox.run_verification (o.docker i) o.timeout).2 ∧
    (∀ call, (Coord.solve_issue url o).calls.get? i = some call →
      call.result.success = false ∧
      call.result.logs = "Sandbox timeout after " ++ toString o.timeout ++ "s" ∧
      Sandbox.DockerStep.kill ∈ call.dtrace ∧
      Sandbox.DockerStep.remove ∈ call.dtrace ∧
      ("Miner: " ++ call.miner_id ++ "\nResult: " ++ "FAIL" ++ "\nLogs: " ++
        call.result.logs ++ "\n---") ∈ (Coord.solve_issue url o).logs) ∧
    (Coord.solve_issue url o).passing.length =
      ((Coord.solve_issue url o).calls.filter (fun x => x.result.success)).length ∧
    (o.net.raises = none → ¬ (Coord.collectCands o.net.emissions).isEmpty →
      ∀ t, Coord.computeTargetRepoUrl url = Except.ok t →
      (Coord.solve_issue url o).calls.length =
        ((Coord.collectCands o.net.emissions).filter
          (fun c => (Validation.validate_patch_code c.code).ok)).length) := by
  have hrv : Sandbox.run_verification (o.docker i) o.timeout =
      (⟨false, "Sandbox timeout after " ++ toString o.timeout ++ "s"⟩,
       [Sandbox.DockerStep.runCreate true, Sandbox.DockerStep.copy "solution.py",
        Sandbox.DockerStep.copy "test_suite.py", Sandbox.DockerStep.wait,
        Sandbox.DockerStep.kill, Sandbox.DockerStep.remove]) := by
    simp only [Sandbox.run_verification, hrun, hcs, hct, hw]
  refine ⟨by rw [hrv], by rw [hrv]; simp, by rw [hrv]; simp, ?_,
    Coord.solve_issue_passing_count url o,
    fun h1 h2 t h3 => Coord.solve_issue_calls_length url o h1 h2 t h3⟩
  intro call hcall
  obtain ⟨hres, hlog⟩ := Coord.solve_issue_calls_spec url o i call hcall
  rw [hrv] at hres
  have hr1 : call.result =
      ⟨false, "Sandbox timeout after " ++ toString o.timeout ++ "s"⟩ :=
    congrArg Prod.fst hres
  have hr2 : call.dtrace =
      [Sandbox.DockerStep.runCreate true, Sandbox.DockerStep.copy "solution.py",
       Sandbox.DockerStep.copy "test_suite.py", Sandbox.DockerStep.wait,
       Sandbox.DockerStep.kill, Sandbox.DockerStep.remove] :=
    congrArg Prod.snd hres
  refine ⟨by rw [hr1], by rw [hr1], by rw [hr2]; simp, by rw [hr2]; simp, ?_⟩
  have hsucc : call.result.success = false := by rw [hr1]
  simpa [hsucc] using hlog

/-- Witness for C8: a two-candidate run in which the first verification
call times out and the second passes. -/
theorem c8_theorem_witness :
    (Coord.c8oracle.docker 0).run = Except.ok () ∧
    (Coord.c8oracle.docker 0).copySolution = Except.ok () ∧
    (Coord.c8oracle.docker 0).copyTests = Except.ok () ∧
    (Coord.c8oracle.docker 0).wait = Except.error "Read timed out." ∧
    ((Sandbox.run_verification (Coord.c8oracle.docker 0) Coord.c8oracle.timeout).1 =
      ⟨false, "Sandbox timeout after " ++ toString Coord.c8oracle.timeout ++ "s"⟩ ∧
    Sandbox.DockerStep.kill ∈
      (Sandbox.run_verification (Coord.c8oracle.docker 0) Coord.c8oracle.timeout).2 ∧
    Sandbox.DockerStep.remove ∈
      (Sandbox.run_verification (Coord.c8oracle.docker 0) Coord.c8oracle.timeout).2 ∧
    (∀ call, (Coord.solve_issue "https://github.com/acme/widget"
        Coord.c8oracle).calls.get? 0 = some call →
      call.result.success = false ∧
      call.result.logs =
        "Sandbox timeout after " ++ toString Coord.c8oracle.timeout ++ "s" ∧
      Sandbox.DockerStep.kill ∈ call.dtrace ∧
      Sandbox.DockerStep.remove ∈ call.dtrace ∧
      ("Miner: " ++ call.miner_id ++ "\nResult: " ++ "FAIL" ++ "\nLogs: " ++
        call.result.logs ++ "\n---") ∈
        (Coord.solve_issue "https://github.com/acme/widget" Coord.c8oracle).logs) ∧
    (Coord.solve_issue "https://github.com/acme/widget" Coord.c8oracle).passing.length =
      ((Coord.solve_issue "https://github.com/acme/widget" Coord.c8oracle).calls.filter
        (fun x => x.result.success)).length ∧
    (Coord.c8oracle.net.raises = none →
      ¬ (Coord.collectCands Coord.c8oracle.net.emissions).isEmpty →
      ∀ t, Coord.computeTargetRepoUrl "https://github.com/acme/widget" =
        Except.ok t →
      (Coord.solve_issue "https://github.com/acme/widget"
          Coord.c8oracle).calls.length =
        ((Coord.collectCands Coord.c8oracle.net.emissions).filter
          (fun c => (Validation.validate_patch_code c.code).ok)).length)) :=
  ⟨rfl, rfl, rfl, rfl,
   c8_theorem "https://github.com/acme/widget" Coord.c8oracle 0 "Read timed out."
     rfl rfl rfl rfl⟩

end Raven
